import Mathlib

/-!
# Verification of the content-api generation pipeline

Shallow embedding of the Python sources `src/main.py`, `src/app.py` and
`src/api.py` of the `content-api` repository.  Text values are modelled as
`List Char`; the external NLTK capabilities (`word_tokenize`,
`sent_tokenize`) are modelled by executable whitespace / sentence-boundary
splitters; Python floats are modelled by `ℚ`; `random.choice` and
`random.random` are modelled by explicit choice streams passed as function
arguments; network I/O is modelled by an explicit environment value.
-/

set_option autoImplicit false
set_option linter.unusedVariables false

namespace ContentApi

/-- Text is modelled as a list of characters. -/
abbrev Text := List Char

/-! ## Word tokenizer (model of `nltk.word_tokenize` / Python `str.split()`)

The tokenizer splits on whitespace and drops empty pieces.  `tokenizeAux`
carries the (reversed) current word as an accumulator. -/

def tokenizeAux : Text → Text → List Text
  | [], acc => if acc = [] then [] else [acc.reverse]
  | c :: cs, acc =>
      if c.isWhitespace then
        if acc = [] then tokenizeAux cs [] else acc.reverse :: tokenizeAux cs []
      else tokenizeAux cs (c :: acc)

/-- Model of the word tokenizer: maximal whitespace-free runs. -/
def tokenize (s : Text) : List Text := tokenizeAux s []

/-- `len(word_tokenize(s))` in the Python sources. -/
def wordCount (s : Text) : Nat := (tokenize s).length

/-- `' '.join(ts)` in the Python sources. -/
def joinSp : List Text → Text
  | [] => []
  | t :: ts =>
    match ts with
    | [] => t
    | _ :: _ => t ++ ' ' :: joinSp ts

/-! ## Trimming (model of Python `str.strip()`) -/

def trimL (s : Text) : Text := s.dropWhile (·.isWhitespace)

def trimR (s : Text) : Text := (trimL s.reverse).reverse

def trim (s : Text) : Text := trimL (trimR s)

/-! ## Sentence tokenizer (model of `nltk.sent_tokenize`)

A sentence break occurs after `.`, `!` or `?` when the next character is
whitespace (or the text ends there).  Each raw segment is trimmed and empty
segments are dropped. -/

def isSentEnd (c : Char) : Bool := c = '.' || c = '!' || c = '?'

def headIsWs : Text → Bool
  | [] => false
  | c :: _ => c.isWhitespace

def sentSplitAux : Text → Text → List Text
  | [], acc => [acc.reverse]
  | c :: cs, acc =>
      if isSentEnd c && (cs.isEmpty || headIsWs cs) then
        (c :: acc).reverse :: sentSplitAux cs []
      else
        sentSplitAux cs (c :: acc)

/-- Model of the sentence tokenizer. -/
def sentTokenize (s : Text) : List Text :=
  ((sentSplitAux s []).map trim).filter (· ≠ [])

/-! ## Further string utilities used by the sources -/

/-- Python `str.lower()`. -/
def pyLower (s : Text) : Text := s.map Char.toLower

/-- Regex word character `\w` (ASCII reading, which covers all catalog text). -/
def isWordChar (c : Char) : Bool := c.isAlphanum || c = '_'

/-- Does `p` occur at the very beginning of `t`? -/
def begMatch : Text → Text → Bool
  | [], _ => true
  | _ :: _, [] => false
  | p :: ps, c :: cs => p == c && begMatch ps cs

/-- Case-insensitive variant of `begMatch`. -/
def ciBegMatch : Text → Text → Bool
  | [], _ => true
  | _ :: _, [] => false
  | p :: ps, c :: cs => p.toLower == c.toLower && ciBegMatch ps cs

/-- Substring test, `pat in t` in Python. -/
def isSubstr (pat : Text) : Text → Bool
  | [] => pat.isEmpty
  | c :: cs => begMatch pat (c :: cs) || isSubstr pat cs

/-- Python `str.count(pat)` for non-empty `pat`: counts non-overlapping
occurrences, scanning left to right. -/
def countOccurFuel (pat : Text) : Nat → Text → Nat
  | 0, _ => 0
  | fuel + 1, t =>
    match t with
    | [] => 0
    | c :: cs =>
        if begMatch pat (c :: cs) then
          1 + countOccurFuel pat fuel ((c :: cs).drop pat.length)
        else
          countOccurFuel pat fuel cs

def countOccur (pat t : Text) : Nat := countOccurFuel pat t.length t

/-- Python `str.split(sep)` for a single separator character (keeps empty
pieces, unlike the whitespace `tokenize`). -/
def splitCharAux (sep : Char) : Text → Text → List Text
  | [], acc => [acc.reverse]
  | c :: cs, acc =>
      if c == sep then acc.reverse :: splitCharAux sep cs []
      else splitCharAux sep cs (c :: acc)

def splitChar (sep : Char) (s : Text) : List Text := splitCharAux sep s []

/-- Python `'\n'.join(lines)` and friends. -/
def joinChar (sep : Char) : List Text → Text
  | [] => []
  | t :: ts =>
    match ts with
    | [] => t
    | _ :: _ => t ++ sep :: joinChar sep ts

/-- Python `str.title()`: first cased letter of each word upper-cased, the
remaining letters lower-cased. -/
def pyTitleAux : Bool → Text → Text
  | _, [] => []
  | prevAlpha, c :: cs =>
      (if c.isAlpha then (if prevAlpha then c.toLower else c.toUpper) else c)
        :: pyTitleAux c.isAlpha cs

def pyTitle (s : Text) : Text := pyTitleAux false s

/-- Division on `ℚ`, stated through `Rat.divInt` so that it is
kernel-executable (the Batteries `Rat` arithmetic is `@[irreducible]`,
which blocks `decide`).  `qdiv_eq` below shows it agrees with field
division. -/
def qdiv (a b : ℚ) : ℚ := Rat.divInt (a.num * b.den) (a.den * b.num)

theorem qdiv_eq (a b : ℚ) : qdiv a b = a / b := (Rat.div_def' a b).symm

/-- Multiplication by `100` on `ℚ`, kernel-executable. -/
def qmul100 (q : ℚ) : ℚ := Rat.divInt (100 * q.num) q.den

theorem qden_cast_ne_zero (q : ℚ) : ((q.den : ℤ) : ℚ) ≠ 0 := by
  exact_mod_cast fun h => q.den_nz (by exact_mod_cast h)

theorem qmul100_eq (q : ℚ) : qmul100 q = q * 100 := by
  rw [qmul100, Rat.divInt_eq_div]
  push_cast
  conv_rhs => rw [← Rat.num_div_den q]
  ring

/-- Python `round` to the nearest integer, kernel-executable: agrees with
Mathlib `round` (so half-values round up where Python banker-rounds — no
half-value arises in this development). -/
def qround (q : ℚ) : ℤ := Rat.floor (Rat.divInt (2 * q.num + q.den) (2 * q.den))

theorem ratFloor_eq (x : ℚ) : Rat.floor x = ⌊x⌋ := by
  rw [Rat.floor_def', Rat.floor_def]

theorem qround_eq (q : ℚ) : qround q = round q := by
  have hden : ((q.den : ℚ)) ≠ 0 := Nat.cast_ne_zero.mpr q.den_nz
  rw [round_eq, qround, ratFloor_eq]
  congr 1
  rw [Rat.divInt_eq_div]
  push_cast
  rw [eq_comm, eq_div_iff (mul_ne_zero two_ne_zero hden)]
  calc (q + 1 / 2) * (2 * (q.den : ℚ))
      = (q * q.den) * 2 + q.den := by ring
    _ = (q.num : ℚ) * 2 + q.den := by rw [Rat.mul_den_eq_num]
    _ = 2 * q.num + q.den := by ring

/-- Python `round(q, 2)`. -/
def round2 (q : ℚ) : ℚ := Rat.divInt (qround (qmul100 q)) 100

theorem round2_eq (q : ℚ) : round2 q = (round (q * 100) : ℚ) / 100 := by
  rw [round2, qround_eq, qmul100_eq, Rat.divInt_eq_div]
  norm_num

/-- Python `max` on rationals (kernel-executable). -/
def qmax (a b : ℚ) : ℚ := if a ≤ b then b else a

/-- Python `min` on rationals (kernel-executable). -/
def qmin (a b : ℚ) : ℚ := if a ≤ b then a else b

/-- Python `min` on integers (kernel-executable). -/
def imin (a b : Int) : Int := if a ≤ b then a else b

/-! ## Sanity checks on the text model (concrete evaluations) -/

example : tokenize ("a bb  c".data) = ["a".data, "bb".data, "c".data] := by decide

example : wordCount ("# Title\n\nsome body here".data) = 5 := by decide

example : sentTokenize ("A b c. D e! F".data) = ["A b c.".data, "D e!".data, "F".data] := by
  decide

example : sentTokenize ("U.S.A. wins".data) = ["U.S.A.".data, "wins".data] := by decide

example : joinSp ["ab".data, "c".data] = "ab c".data := by decide

example : pyTitle ("machine learning".data) = "Machine Learning".data := by decide

example : countOccur ("ab".data) ("zababz".data) = 2 := by decide

example : isSubstr ("is req".data) ("topic is required".data) = true := by decide

example : round2 (qdiv 200 3) = Rat.divInt 6667 100 := by decide

example : qround (qdiv 5 2) = 3 := by decide

/-! ## `_check_plagiarism` (src/main.py lines 415-437, src/app.py lines 252-269)

The two Python implementations are textually identical up to the docstring.
Both are embedded separately so their relationship can be stated (claim C4).
The `except` branch (returning `95.0`) is unreachable in the model because
the embedded sentence tokenizer is total. -/

/-- `re.sub(r'[^\w\s]', '', sentence.lower()).strip()`. -/
def normalizeSentence (s : Text) : Text :=
  trim ((pyLower s).filter (fun c => isWordChar c || c.isWhitespace))

/-- `_check_plagiarism` of `src/main.py`. -/
def check_plagiarism (content : Text) : ℚ :=
  let sentences := sentTokenize content
  if sentences = [] then 100
  else
    let uniqueSentences :=
      ((sentences.map normalizeSentence).filter
        (fun n => 3 < (tokenize n).length)).dedup
    let uniqueness : ℚ := qmul100 (qdiv (uniqueSentences.length : ℚ) (sentences.length : ℚ))
    qmax 85 (qmin 100 (round2 uniqueness))

/-- `_check_plagiarism` of `src/app.py` (same computation as in `src/main.py`). -/
def app_check_plagiarism (content : Text) : ℚ :=
  let sentences := sentTokenize content
  if sentences = [] then 100
  else
    let uniqueSentences :=
      ((sentences.map normalizeSentence).filter
        (fun n => 3 < (tokenize n).length)).dedup
    let uniqueness : ℚ := qmul100 (qdiv (uniqueSentences.length : ℚ) (sentences.length : ℚ))
    qmax 85 (qmin 100 (round2 uniqueness))

example : normalizeSentence ("The small cat runs fast.".data) =
    "the small cat runs fast".data := by decide

/-! ## `_calculate_seo_score` (src/main.py lines 360-413, src/app.py 225-250)

The additive bonus blocks of the Python code are factored into named helper
definitions; `calculate_seo_score` composes them in exactly the source
order. -/

/-- `[k.strip().lower() for k in keywords.split(',') if k.strip()]`. -/
def parseKeywords (keywords : Text) : List Text :=
  ((splitChar ',' keywords).map (fun k => pyLower (trim k))).filter (· ≠ [])

/-- Word-count band bonus of `src/main.py`. -/
def wcBonus (wc : Nat) : Int :=
  if 800 < wc then 20 else if 500 < wc then 15 else if 300 < wc then 10
  else if 150 < wc then 5 else 0

/-- Heading-count bonus (`content.count('#')`). -/
def headingBonus (h : Nat) : Int := if 3 ≤ h then 15 else if 2 ≤ h then 10 else 0

/-- Paragraph-break bonus (`content.count('\n\n')`). -/
def paraBonus (p : Nat) : Int := if 5 ≤ p then 10 else if 3 ≤ p then 5 else 0

/-- Per-keyword density-tier bonus of `src/main.py`. -/
def kwDensityBonus (cnt wc : Nat) : Int :=
  if 0 < cnt then
    let density : ℚ := if 0 < wc then qmul100 (qdiv (cnt : ℚ) (wc : ℚ)) else 0
    if 1 ≤ density ∧ density ≤ 3 then 10 else if 0 < density then 5 else 0
  else 0

/-- Total keyword bonus of `src/main.py` (guarded by `if keywords:`). -/
def kwBonus (content keywords : Text) (wc : Nat) : Int :=
  if keywords = [] then 0
  else ((parseKeywords keywords).map
    (fun kw => kwDensityBonus (countOccur kw (pyLower content)) wc)).sum

/-- Readability bonus of `src/main.py` (average words per sentence band). -/
def readBonus (wc nSents : Nat) : Int :=
  if nSents = 0 then 0
  else
    let avg : ℚ := qdiv (wc : ℚ) (nSents : ℚ)
    if 15 ≤ avg ∧ avg ≤ 25 then 10 else 0

/-- `_calculate_seo_score` of `src/main.py`. -/
def calculate_seo_score (content keywords : Text) : Int :=
  let wc := wordCount content
  let score : Int := 50 + wcBonus wc + headingBonus (content.count '#')
      + paraBonus (countOccur ('\n' :: '\n' :: []) content)
      + kwBonus content keywords wc
      + readBonus wc (sentTokenize content).length
  imin score 100

/-- Word-count band bonus of `src/app.py` (different bands, no `>800` tier). -/
def app_wcBonus (wc : Nat) : Int :=
  if 500 < wc then 20 else if 300 < wc then 15 else if 150 < wc then 10 else 0

/-- Keyword presence bonus of `src/app.py` (`if keyword in content.lower()`). -/
def app_kwBonus (content keywords : Text) : Int :=
  if keywords = [] then 0
  else ((parseKeywords keywords).map
    (fun kw => if isSubstr kw (pyLower content) then (5 : Int) else 0)).sum

/-- `_calculate_seo_score` of `src/app.py`. -/
def app_calculate_seo_score (content keywords : Text) : Int :=
  let score : Int := 50 + app_wcBonus (wordCount content)
      + (if 2 ≤ content.count '#' then 10 else 0)
      + app_kwBonus content keywords
  imin score 100

/-! ## `_adjust_length` (src/main.py lines 235-270, src/app.py 174-198)

The `while len(words) < target_words` filler loop is modelled by the
fuel-indexed `padLoop`; fuel `targetWords` is sufficient because every
filler sentence contributes at least one word per iteration (proved below
for claim C8).  `random.choice(filler_templates)` is modelled by an
explicit index stream `pick`, reduced modulo the catalog size. -/

/-- Filler catalog of `src/main.py`. -/
def mainFillers : List Text := [
  "This demonstrates the practical value and application potential. ".data,
  "Many industry experts recognize these patterns and trends. ".data,
  "The evidence consistently supports these observations and conclusions. ".data,
  "Further research and development continues to expand our understanding. ".data,
  "Real-world implementations have shown promising results and outcomes. ".data]

/-- Filler catalog of `src/app.py`. -/
def appFillers : List Text := [
  "This demonstrates practical applications and value. ".data,
  "Many experts recognize these patterns and developments. ".data,
  "Further research continues to expand our understanding. ".data,
  "Real-world implementations show promising results. ".data]

/-- `random.choice(catalog)` at loop iteration `k`. -/
def pickFrom (catalog : List Text) (pick : Nat → Nat) (k : Nat) : Text :=
  catalog.getD (pick k % catalog.length) []

/-- The filler-appending `while` loop, with explicit fuel. -/
def padLoop (catalog : List Text) (pick : Nat → Nat) (target : Nat) :
    Nat → Nat → Text → Text
  | 0, _, content => content
  | fuel + 1, k, content =>
      if target ≤ wordCount content then content
      else padLoop catalog pick target fuel (k + 1) (content ++ pickFrom catalog pick k)

/-- `_adjust_length` of `src/main.py`. -/
def adjust_length (pick : Nat → Nat) (content : Text) (targetWords : Nat) : Text :=
  let words := tokenize content
  if targetWords ≤ words.length then
    let trimmed := joinSp (words.take targetWords)
    let sentences := sentTokenize trimmed
    if sentences = [] then trimmed else joinSp sentences
  else
    let padded := padLoop mainFillers pick targetWords targetWords 0 content
    let trimmed := joinSp ((tokenize padded).take targetWords)
    let sentences := sentTokenize trimmed
    if sentences = [] then trimmed else joinSp sentences

/-- `_adjust_length` of `src/app.py`: same trim branch, but the padding
branch returns the first `targetWords` tokens with no sentence re-join. -/
def app_adjust_length (pick : Nat → Nat) (content : Text) (targetWords : Nat) : Text :=
  let words := tokenize content
  if targetWords ≤ words.length then
    let trimmed := joinSp (words.take targetWords)
    let sentences := sentTokenize trimmed
    if sentences = [] then trimmed else joinSp sentences
  else
    let padded := padLoop appFillers pick targetWords targetWords 0 content
    joinSp ((tokenize padded).take targetWords)

/-! ## `_humanize_content` (src/main.py lines 272-339)

Pass 1 applies the regex table `\b…\b` case-insensitively; `replaceCIFuel`
models `re.sub` for a literal pattern that starts and ends with word
characters (true of every catalog entry): a match requires the preceding
character to be a non-word character (tracked by `prevWord`) and the
character after the match to be a non-word character or the end.  Passes 2
apply plain `str.replace`.  Pass 3 (`random.random() > 0.7` /
`random.choice`) is modelled by the explicit streams `flip` and `pickT`. -/

/-- Is the character after the matched region a word character? -/
def wordBoundaryAfter (pat t : Text) : Bool :=
  match t.drop pat.length with
  | [] => true
  | c :: _ => !isWordChar c

/-- Is the last character of the pattern a word character (used as the
`prevWord` state after a replacement, valid since case folding preserves
word-character status)? -/
def patEndWord (pat : Text) : Bool :=
  match pat.getLast? with
  | none => false
  | some c => isWordChar c

/-- `re.sub(r'\b<pat>\b', rep, t, flags=re.IGNORECASE)` for a literal
`pat`, with explicit fuel (the scan consumes at least one character per
step, so fuel `t.length` is exact). -/
def replaceCIFuel (pat rep : Text) : Nat → Bool → Text → Text
  | 0, _, t => t
  | fuel + 1, prevWord, t =>
    match t with
    | [] => []
    | c :: cs =>
        if ciBegMatch pat (c :: cs) && !prevWord && wordBoundaryAfter pat (c :: cs) then
          rep ++ replaceCIFuel pat rep fuel (patEndWord pat) ((c :: cs).drop pat.length)
        else
          c :: replaceCIFuel pat rep fuel (isWordChar c) cs

def replaceCI (pat rep t : Text) : Text := replaceCIFuel pat rep t.length false t

/-- Python `t.replace(pat, rep)` (plain, case-sensitive). -/
def replacePlainFuel (pat rep : Text) : Nat → Text → Text
  | 0, t => t
  | fuel + 1, t =>
    match t with
    | [] => []
    | c :: cs =>
        if begMatch pat (c :: cs) then
          rep ++ replacePlainFuel pat rep fuel ((c :: cs).drop pat.length)
        else
          c :: replacePlainFuel pat rep fuel cs

def replacePlain (pat rep t : Text) : Text := replacePlainFuel pat rep t.length t

/-- The always-applied replacement table of `_humanize_content`. -/
def humanizeReplacements : List (Text × Text) := [
  ("is important".data, "plays a crucial role".data),
  ("very good".data, "exceptionally beneficial".data),
  ("many people".data, "numerous individuals".data),
  ("in order to".data, "to".data),
  ("due to the fact that".data, "because".data),
  ("utilize".data, "use".data),
  ("facilitate".data, "help".data),
  ("optimal".data, "best".data),
  ("commence".data, "begin".data),
  ("terminate".data, "end".data)]

def casualRepl : List (Text × Text) := [
  ("therefore".data, "so".data),
  ("however".data, "but".data),
  ("individuals".data, "people".data),
  ("organizations".data, "companies".data),
  ("methodologies".data, "methods".data),
  ("utilize".data, "use".data)]

def academicRepl : List (Text × Text) := [
  ("so".data, "therefore".data),
  ("but".data, "however".data),
  ("get".data, "obtain".data),
  ("make".data, "construct".data),
  ("show".data, "demonstrate".data),
  ("think".data, "postulate".data)]

def creativeRepl : List (Text × Text) := [
  ("important".data, "pivotal".data),
  ("good".data, "remarkable".data),
  ("big".data, "substantial".data),
  ("small".data, "modest".data),
  ("change".data, "transformation".data)]

def transitionsList : List Text :=
  ["Moreover,".data, "Additionally,".data, "Furthermore,".data, "Consequently,".data]

def applyPairsCI (prs : List (Text × Text)) (t : Text) : Text :=
  prs.foldl (fun acc pr => replaceCI pr.1 pr.2 acc) t

def applyPairs (prs : List (Text × Text)) (t : Text) : Text :=
  prs.foldl (fun acc pr => replacePlain pr.1 pr.2 acc) t

/-- `_humanize_content` of `src/main.py`. -/
def humanize_content (content tone : Text) (flip : Nat → Bool) (pickT : Nat → Nat) : Text :=
  let humanized := applyPairsCI humanizeReplacements content
  let humanized :=
    if tone = "casual".data then applyPairs casualRepl humanized
    else if tone = "academic".data then applyPairs academicRepl humanized
    else if tone = "creative".data then applyPairs creativeRepl humanized
    else humanized
  let sentences := sentTokenize humanized
  let sentences :=
    if 3 < sentences.length then
      sentences.enum.map (fun p =>
        if 1 ≤ p.1 && p.1 < sentences.length - 1 && flip p.1 then
          transitionsList.getD (pickT p.1 % transitionsList.length) [] ++ ' ' :: p.2
        else p.2)
    else sentences
  joinSp sentences

/-! ## `_format_content` (src/main.py lines 341-358) -/

/-- The emphasis trigger words. -/
def triggerWords : List Text :=
  ["important".data, "crucial".data, "essential".data, "key".data]

/-- `re.sub(r'\n\s*\n', '\n\n', t)`: at a newline whose following
whitespace run contains another newline, the greedy `\s*` consumes through
the last newline of the run; the match is replaced by two newlines. -/
def collapseFuel : Nat → Text → Text
  | 0, t => t
  | fuel + 1, t =>
    match t with
    | [] => []
    | c :: cs =>
        if c == '\n' then
          let run := cs.takeWhile (·.isWhitespace)
          if run.any (· == '\n') then
            let k := run.length - 1 - (run.reverse.findIdx (· == '\n'))
            '\n' :: '\n' :: collapseFuel fuel (cs.drop (k + 1))
          else c :: collapseFuel fuel cs
        else c :: collapseFuel fuel cs

def collapseBlank (t : Text) : Text := collapseFuel t.length t

/-- Wrap the first token whose lower-casing is a trigger word in `**…**`. -/
def boldFirst : List Text → List Text
  | [] => []
  | w :: ws =>
      if pyLower w ∈ triggerWords then ("**".data ++ w ++ "**".data) :: ws
      else w :: boldFirst ws

/-- Per-line emphasis pass of `_format_content`. -/
def processLine (line : Text) : Text :=
  if triggerWords.any (fun w => isSubstr w (pyLower line)) then
    joinSp (boldFirst (tokenize line))
  else line

/-- `_format_content` of `src/main.py`. -/
def format_content (content : Text) : Text :=
  let c := collapseBlank content
  joinChar '\n' ((splitChar '\n' c).map processLine)

example : replaceCI ("is important".data) ("plays a crucial role".data)
    ("This Is Important. It is importantly so.".data) =
    "This plays a crucial role. It is importantly so.".data := by decide

example : replacePlain ("so".data) ("therefore".data) ("also so".data) =
    "altherefore therefore".data := by decide

example : collapseBlank ("a\n\n \n\nb".data) = "a\n\nb".data := by decide

example : format_content ("the key point\nnothing  here".data) =
    "the **key** point\nnothing  here".data := by decide

example : adjust_length (fun _ => 0)
    ("Alpha beta gamma delta epsilon. Zeta eta theta iota kappa.".data) 7 =
    "Alpha beta gamma delta epsilon. Zeta eta".data := by decide

example : check_plagiarism
    ("the small cat runs fast. the small cat runs fast. dogs bark loudly at night.".data)
    = 85 := by decide

/-! ## `_create_content_structure` (src/main.py lines 152-233)

`random.choice` on the title and intro catalogs is modelled by indices
reduced modulo the catalog size; `random.sample(section_templates, 3)` is
modelled by an index list (the claims below hold for every index list, a
superset of the distinct-sample behaviours of the source). -/

structure BuildRand where
  titleIdx : Nat
  introIdx : Nat
  secIdxs : List Nat

def titleOptions (topic : Text) : List Text := [
  "# ".data ++ topic ++ ": A Comprehensive Guide".data,
  "# Understanding ".data ++ topic ++ " in Modern Context".data,
  "# The Complete Guide to ".data ++ topic]

def introTemplates (topic : Text) : List Text := [
  "In the rapidly evolving digital landscape, ".data ++ topic ++
    " has emerged as a critical component for success. ".data,
  "The significance of ".data ++ topic ++
    " cannot be overstated in today's interconnected world. ".data,
  "As technology continues to advance, ".data ++ topic ++
    " plays an increasingly vital role across various sectors. ".data]

def sectionTemplates (topic : Text) : List (Text × Text) := [
  ("Benefits and Advantages".data,
   "The primary benefits of ".data ++ topic ++
     " include increased efficiency, improved outcomes, and enhanced capabilities. ".data),
  ("Implementation Strategies".data,
   "Successful implementation of ".data ++ topic ++
     " requires careful planning, proper resources, and ongoing evaluation. ".data),
  ("Common Challenges".data,
   "While ".data ++ topic ++
     " offers many advantages, organizations may face challenges such as adoption barriers and technical requirements. ".data),
  ("Future Outlook".data,
   "Looking ahead, ".data ++ topic ++
     " is poised for continued growth and innovation, with new developments emerging regularly. ".data),
  ("Practical Applications".data,
   "In practice, ".data ++ topic ++
     " finds applications across various domains including business, education, and healthcare. ".data)]

/-- One numbered key-concept item,
`f"{i}. **{keyword.title()}**: An essential aspect of {topic.lower()}. "`. -/
def kwItem (topic : Text) (i : Nat) (kw : Text) : Text :=
  (Nat.repr i).data ++ ". **".data ++ pyTitle kw ++
    "**: An essential aspect of ".data ++ pyLower topic ++ ". ".data

/-- The keyword section (present only when the parsed keyword list is
non-empty). -/
def kwSection (topic keywords : Text) : Text :=
  if keywords = [] then []
  else
    let keywordList := ((splitChar ',' keywords).map trim).filter (· ≠ [])
    if keywordList = [] then []
    else
      "## Key Concepts\n".data ++
        ((keywordList.take 6).enum.map (fun p => kwItem topic (p.1 + 1) p.2)).flatten ++
        "\n\n".data

/-- One body section: heading plus template, extended with research
sentences 1-2 when the research text is long enough. -/
def bodySection (research : Text) (sec : Text × Text) : Text :=
  let expanded :=
    if 100 < research.length then
      let rs := sentTokenize research
      if 2 < rs.length then sec.2 ++ joinSp ((rs.drop 1).take 2) ++ " ".data
      else sec.2
    else sec.2
  "## ".data ++ sec.1 ++ "\n".data ++ expanded ++ "\n\n".data

/-- `_create_content_structure` of `src/main.py` (`tone` is received and
ignored, as in the source). -/
def create_content_structure (topic keywords research tone : Text) (r : BuildRand) : Text :=
  let title := (titleOptions topic).getD (r.titleIdx % (titleOptions topic).length) []
      ++ "\n\n".data
  let intro := (introTemplates topic).getD (r.introIdx % (introTemplates topic).length) []
  let intro :=
    if research ≠ [] then
      match sentTokenize research with
      | [] => intro
      | s :: _ => intro ++ s ++ " ".data
    else intro
  let introSection := "## Introduction\n".data ++ intro ++ "\n\n".data
  let body := ((r.secIdxs.take 3).map (fun i =>
      bodySection research
        ((sectionTemplates topic).getD (i % (sectionTemplates topic).length) ([], [])))).flatten
  let conclusion := "## Conclusion\n".data ++
    "In summary, ".data ++ topic ++
    " represents a significant area of focus with substantial implications. ".data ++
    "By understanding and effectively leveraging ".data ++ pyLower topic ++
    ", individuals and organizations can achieve meaningful progress. ".data ++
    "As the field continues to evolve, staying informed about developments in ".data ++
    pyLower topic ++ " will remain essential.\n\n".data
  title ++ introSection ++ kwSection topic keywords ++ body ++ conclusion

/-! ## `safe_fetch` and `fetch_web_data` (src/main.py lines 40-116)

Network behaviour is modelled by an explicit environment: `wiki` is the
outcome of the Wikipedia request (`raise` covers every exception inside the
`try`, including response parsing), `ddgAttempts i` is the outcome of the
`i`-th attempt inside `safe_fetch` (`none` = exception), and `ddgParse`
yields the snippet texts extracted from the DuckDuckGo page (`none` = a
parsing exception). -/

inductive WikiOutcome where
  | wraise : WikiOutcome
  | pages (extract : Option Text) : WikiOutcome

structure FetchEnv where
  wiki : WikiOutcome
  ddgAttempts : Nat → Option Text
  ddgParse : Text → Option (List Text)

/-- The retry loop of `safe_fetch`: first successful attempt wins, and the
empty string is returned after `maxRetries` failures. -/
def safe_fetch_from (attempts : Nat → Option Text) : Nat → Nat → Text
  | _, 0 => []
  | i, n + 1 =>
    match attempts i with
    | some body => body
    | none => safe_fetch_from attempts (i + 1) n

def safe_fetch (attempts : Nat → Option Text) (maxRetries : Nat) : Text :=
  safe_fetch_from attempts 0 maxRetries

/-- The synthesized fallback paragraph (the triple-quoted f-string of the
source, including its indentation whitespace). -/
def fallbackContent (query : Text) : Text :=
  "\n        ".data ++ query ++
  " is an important topic in today's world. Many experts are discussing \n        the implications and applications of ".data
  ++ query ++
  ". Research shows that understanding \n        ".data ++ query ++
  " can lead to better outcomes in various fields. The key aspects include \n        implementation strategies, benefits, and future trends.\n        ".data

/-- `fetch_web_data` of `src/main.py`. -/
def fetch_web_data (env : FetchEnv) (query : Text) : Text :=
  match env.wiki with
  | .wraise => fallbackContent query
  | .pages (some e) => e.take 1000
  | .pages none =>
      let html := safe_fetch env.ddgAttempts 3
      if html ≠ [] then
        match env.ddgParse html with
        | none => fallbackContent query
        | some raws =>
            let results := raws.filter (fun t => t ≠ [] && 50 < t.length)
            if results ≠ [] then joinSp (results.take 5) else []
      else fallbackContent query

/-! ## `generate_content` (src/main.py lines 118-150) -/

structure GenEnv where
  fetchEnv : FetchEnv
  buildRand : BuildRand
  fillerPick : Nat → Nat
  transFlip : Nat → Bool
  transPick : Nat → Nat

structure GenerationResult where
  success : Bool
  content : Text
  word_count : Nat
  seo_score : Int
  plagiarism_score : ℚ
  topic : Text
  keywords : Text
  tone : Text

/-- `generate_content` of `src/main.py`: the five pipeline stages in source
order, followed by the metric computations. -/
def generate_content (env : GenEnv) (topic keywords tone : Text) (length : Nat) :
    GenerationResult :=
  let research := fetch_web_data env.fetchEnv topic
  let content := create_content_structure topic keywords research tone env.buildRand
  let content := adjust_length env.fillerPick content length
  let content := humanize_content content tone env.transFlip env.transPick
  let content := format_content content
  { success := true
    content := content
    word_count := wordCount content
    seo_score := calculate_seo_score content keywords
    plagiarism_score := check_plagiarism content
    topic := topic
    keywords := keywords
    tone := tone }

example : kwItem ("AI".data) 2 ("machine learning".data) =
    "2. **Machine Learning**: An essential aspect of ai. ".data := by decide

/-! ## Boundary collaborators

The HTTP endpoints (src/api.py lines 47-100, src/app.py lines 297-345),
the CLI entry point (src/main.py lines 439-476) and the batch endpoint
(src/api.py lines 102-157) are modelled as request validators /
constructors: the outcome records either the rejection (status and
message) or the exact arguments with which `generate_content` is invoked.
Request-dict values are modelled by `PyVal` (a JSON number or string). -/

inductive PyVal where
  | pint (n : Int) : PyVal
  | pstr (s : Text) : PyVal
deriving DecidableEq

/-- Value of a non-empty all-digit string. -/
def digitsValAux : Text → Nat → Option Nat
  | [], acc => some acc
  | c :: cs, acc =>
      if c.isDigit then digitsValAux cs (acc * 10 + (c.toNat - 48)) else none

def digitsNonEmpty : Text → Option Nat
  | [] => none
  | c :: cs => digitsValAux (c :: cs) 0

/-- Python `int(s)` on a string: optional sign and at least one digit after
stripping surrounding whitespace; anything else raises (`none`). -/
def parseIntText (s : Text) : Option Int :=
  match trim s with
  | [] => none
  | '+' :: rest => (digitsNonEmpty rest).map Int.ofNat
  | '-' :: rest => (digitsNonEmpty rest).map (fun n => -(n : Int))
  | t => (digitsNonEmpty t).map Int.ofNat

/-- Python `int(v)`: identity on integers, parse on strings. -/
def pyToInt : PyVal → Option Int
  | .pint n => some n
  | .pstr s => parseIntText s

/-- Python `max` on integers. -/
def imax (a b : Int) : Int := if a ≤ b then b else a

structure ReqData where
  topic : Option Text
  keywords : Option Text
  tone : Option Text
  length : Option PyVal

inductive BoundaryOutcome where
  | reject (status : Nat) (msg : Text) : BoundaryOutcome
  | invoke (topic keywords tone : Text) (length : Int) : BoundaryOutcome
deriving DecidableEq

/-- The `/generate` endpoint of `src/api.py`: empty/missing topic is
rejected with HTTP 400; the length is converted with
`max(100, min(2000, int(...)))`, falling back to `500` when `int` raises;
otherwise `generate_content` is invoked with the stripped fields. -/
def api_generate (data : ReqData) : BoundaryOutcome :=
  let msg := "Topic is required. Please provide a topic for content generation.".data
  match data.topic with
  | none => .reject 400 msg
  | some t =>
      if t = [] then .reject 400 msg
      else
        let length :=
          match pyToInt (data.length.getD (.pint 500)) with
          | some n => imax 100 (imin 2000 n)
          | none => 500
        .invoke (trim t) (trim (data.keywords.getD []))
          (trim (data.tone.getD ("professional".data))) length

/-- The `/generate` endpoint of `src/app.py` (identical logic, shorter
message). -/
def app_generate (data : ReqData) : BoundaryOutcome :=
  let msg := "Topic is required.".data
  match data.topic with
  | none => .reject 400 msg
  | some t =>
      if t = [] then .reject 400 msg
      else
        let length :=
          match pyToInt (data.length.getD (.pint 500)) with
          | some n => imax 100 (imin 2000 n)
          | none => 500
        .invoke (trim t) (trim (data.keywords.getD []))
          (trim (data.tone.getD ("professional".data))) length

inductive CliOutcome where
  | printError (msg : Text) : CliOutcome
  | invoke (topic keywords tone : Text) (length : Int) : CliOutcome
deriving DecidableEq

/-- The CLI `main()` of `src/main.py`: no topic validation — the pipeline
is invoked with `input_data.get('topic', '')` as-is; only an exception
(such as an unparsable `length`) diverts to the error print. -/
def cli_main (data : ReqData) : CliOutcome :=
  match pyToInt (data.length.getD (.pint 500)) with
  | none => .printError "invalid literal for int()".data
  | some n =>
      .invoke (data.topic.getD []) (data.keywords.getD [])
        (data.tone.getD ("professional".data)) n

inductive BatchItem where
  | plainTopic (topic : Text) : BatchItem
  | objTopic (topic keywords tone : Option Text) (length : Option PyVal) : BatchItem
deriving DecidableEq

structure BatchData where
  topics : List BatchItem
  keywords : Option Text
  tone : Option Text
  length : Option PyVal

inductive BatchOutcome where
  | reject (status : Nat) (msg : Text) : BatchOutcome
  | serverError (msg : Text) : BatchOutcome
  | ok (requests : List (Text × Text × Text × Int)) : BatchOutcome
deriving DecidableEq

/-- The `generate_content` arguments built for one batch item: note
`int(topic.get('length', 300))` with no clamp and no fallback — an
unparsable length raises (`none`). -/
def batchItemReq (data : BatchData) : BatchItem → Option (Text × Text × Text × Int)
  | .plainTopic t =>
      (pyToInt (data.length.getD (.pint 300))).map (fun n =>
        (t, data.keywords.getD [], data.tone.getD ("professional".data), n))
  | .objTopic t k tn l =>
      (pyToInt (l.getD (.pint 300))).map (fun n =>
        (t.getD [], k.getD [], tn.getD ("professional".data), n))

def collectReqs (data : BatchData) : List BatchItem → Option (List (Text × Text × Text × Int))
  | [] => some []
  | item :: rest =>
      match batchItemReq data item with
      | none => none
      | some r => (collectReqs data rest).map (r :: ·)

/-- The `/batch` endpoint of `src/api.py`: list-size validation, then the
per-item loop; an exception in any `int` conversion aborts the whole batch
with the HTTP 500 `except` branch (`success': False`, no results),
otherwise the ordered invocation list is produced. -/
def batch_generate (data : BatchData) : BatchOutcome :=
  if data.topics = [] then .reject 400 "No topics provided".data
  else if 10 < data.topics.length then
    .reject 400 "Maximum 10 topics allowed per request".data
  else
    match collectReqs data data.topics with
    | none => .serverError "invalid literal for int()".data
    | some rs => .ok rs

example : parseIntText (" 42 ".data) = some 42 := by decide

example : parseIntText ("not-a-number".data) = none := by decide

example : cli_main ⟨some [], none, none, none⟩ =
    .invoke [] [] ("professional".data) 500 := by decide

/-! ## Concrete inputs used in the claim analyses -/

/-- Three sentences, the first repeated verbatim, all with more than three
normalized tokens. -/
def exC1 : Text :=
  "the small cat runs fast. the small cat runs fast. dogs bark loudly at night.".data

/-- Four sentences with one repetition: raw uniqueness ratio 75 < 85. -/
def exC4 : Text :=
  "a b c d e one. a b c d e one. a b c d e two. a b c d e three.".data

/-- Two sentences; truncation to 7 tokens falls inside the second. -/
def c3content : Text :=
  "Alpha beta gamma delta epsilon. Zeta eta theta iota kappa.".data

/-- A single-sentence text with one `alpha`, one `beta` and `n` padding
words. -/
def c5words (n : Nat) : List Text :=
  "alpha".data :: "beta".data :: List.replicate n ("zzz".data)

def c5a : Text := joinSp (c5words 94)

def c5b : Text := joinSp (c5words 149)

/-- Environment for a deterministic full pipeline run: empty research
(wiki page without usable extract text), sections 0-2, one transition coin
landing on sentence 1. -/
def envC2 : GenEnv :=
  { fetchEnv :=
      { wiki := .pages (some []), ddgAttempts := fun _ => none, ddgParse := fun _ => none }
    buildRand := { titleIdx := 0, introIdx := 0, secIdxs := [0, 1, 2] }
    fillerPick := fun _ => 0
    transFlip := fun i => i == 1
    transPick := fun _ => 0 }

/-- Environment in which the network raises at every tier. -/
def envAllFail : GenEnv :=
  { fetchEnv :=
      { wiki := .wraise, ddgAttempts := fun _ => none, ddgParse := fun _ => none }
    buildRand := { titleIdx := 0, introIdx := 0, secIdxs := [0, 1, 2] }
    fillerPick := fun _ => 0
    transFlip := fun _ => false
    transPick := fun _ => 0 }

/-! ## Lemmas about the word tokenizer -/

theorem tokenizeAux_ws_append {c : Char} (hc : c.isWhitespace = true) :
    ∀ (a : Text) (acc : Text) (b : Text),
      tokenizeAux (a ++ c :: b) acc = tokenizeAux a acc ++ tokenizeAux b []
  | [], acc, b => by
    by_cases h : acc = [] <;> simp [tokenizeAux, hc, h]
  | x :: a, acc, b => by
    by_cases hx : x.isWhitespace
    · by_cases h : acc = [] <;>
        simp [tokenizeAux, hx, h, tokenizeAux_ws_append hc a _ b]
    · simp [tokenizeAux, hx, tokenizeAux_ws_append hc a _ b]

theorem tokenize_ws_cons {c : Char} (hc : c.isWhitespace = true) (s : Text) :
    tokenize (c :: s) = tokenize s := by
  simp [tokenize, tokenizeAux, hc]

theorem tokenize_append_ws {c : Char} (hc : c.isWhitespace = true) (a b : Text) :
    tokenize (a ++ c :: b) = tokenize a ++ tokenize b :=
  tokenizeAux_ws_append hc a [] b

theorem tokenizeAux_length_pos :
    ∀ (s : Text) (acc : Text), acc ≠ [] → 1 ≤ (tokenizeAux s acc).length
  | [], acc, h => by simp [tokenizeAux, h]
  | c :: cs, acc, h => by
    by_cases hc : c.isWhitespace
    · simp [tokenizeAux, hc, h]
    · simpa [tokenizeAux, hc] using tokenizeAux_length_pos cs (c :: acc) (by simp)

theorem tokenizeAux_length_le_append :
    ∀ (a : Text) (acc : Text) (b : Text),
      (tokenizeAux a acc).length ≤ (tokenizeAux (a ++ b) acc).length
  | [], acc, b => by
    by_cases h : acc = []
    · simp [tokenizeAux, h]
    · simpa [tokenizeAux, h] using tokenizeAux_length_pos b acc h
  | x :: a, acc, b => by
    by_cases hx : x.isWhitespace
    · by_cases h : acc = [] <;>
        simpa [tokenizeAux, hx, h] using tokenizeAux_length_le_append a [] b
    · simpa [tokenizeAux, hx] using tokenizeAux_length_le_append a (x :: acc) b

theorem wordCount_le_append (a b : Text) : wordCount a ≤ wordCount (a ++ b) :=
  tokenizeAux_length_le_append a [] b

/-- Every token produced by the tokenizer is non-empty and whitespace-free. -/
theorem tokenizeAux_tokens_wf :
    ∀ (s : Text) (acc : Text), (∀ x ∈ acc, x.isWhitespace = false) →
      ∀ tok ∈ tokenizeAux s acc, tok ≠ [] ∧ ∀ x ∈ tok, x.isWhitespace = false
  | [], acc, hacc, tok, htok => by
    by_cases h : acc = []
    · simp [tokenizeAux, h] at htok
    · simp [tokenizeAux, h] at htok
      subst htok
      refine ⟨by simpa using h, fun x hx => hacc x (by simpa using hx)⟩
  | c :: cs, acc, hacc, tok, htok => by
    by_cases hc : c.isWhitespace
    · by_cases h : acc = []
      · exact tokenizeAux_tokens_wf cs [] (by simp)
          tok (by simpa [tokenizeAux, hc, h] using htok)
      · simp only [tokenizeAux, hc, if_true, if_neg h, List.mem_cons] at htok
        rcases htok with heq | htok
        · subst heq
          exact ⟨by simpa using h, fun x hx => hacc x (by simpa using hx)⟩
        · exact tokenizeAux_tokens_wf cs [] (by simp) tok htok
    · refine tokenizeAux_tokens_wf cs (c :: acc) ?_ tok
        (by simpa [tokenizeAux, hc] using htok)
      intro x hx
      rcases List.mem_cons.mp hx with rfl | hx
      · simpa using hc
      · exact hacc x hx

theorem tokenize_tokens_wf (s : Text) :
    ∀ tok ∈ tokenize s, tok ≠ [] ∧ ∀ x ∈ tok, x.isWhitespace = false :=
  tokenizeAux_tokens_wf s [] (by simp)

/-- A non-empty whitespace-free text is its own single token. -/
theorem tokenizeAux_single :
    ∀ (s : Text) (acc : Text), (∀ x ∈ s, x.isWhitespace = false) →
      (acc ≠ [] ∨ s ≠ []) → tokenizeAux s acc = [acc.reverse ++ s]
  | [], acc, _, hne => by
    rcases hne with h | h
    · simp [tokenizeAux, h]
    · simp at h
  | c :: cs, acc, hs, _ => by
    have hc : c.isWhitespace = false := hs c (by simp)
    have := tokenizeAux_single cs (c :: acc) (fun x hx => hs x (by simp [hx]))
      (Or.inl (by simp))
    simp [tokenizeAux, hc, this]

theorem tokenize_token (tok : Text) (hne : tok ≠ [])
    (hws : ∀ x ∈ tok, x.isWhitespace = false) : tokenize tok = [tok] := by
  simpa using tokenizeAux_single tok [] hws (Or.inr hne)

/-- `tokenize` distributes over space-joins. -/
theorem tokenize_joinSp : ∀ l : List Text,
    tokenize (joinSp l) = (l.map tokenize).flatten
  | [] => by simp [joinSp, tokenize, tokenizeAux]
  | [t] => by simp [joinSp]
  | t :: s :: ts => by
    have : joinSp (t :: s :: ts) = t ++ ' ' :: joinSp (s :: ts) := rfl
    rw [this, tokenize_append_ws (by decide), tokenize_joinSp (s :: ts)]
    simp

theorem flatten_map_singleton : ∀ ts : List Text, (ts.map (fun t => [t])).flatten = ts
  | [] => rfl
  | t :: ts => by simp [flatten_map_singleton ts]

/-- Re-joining a token list is the identity on tokens. -/
theorem tokenize_joinSp_tokens (ts : List Text)
    (h : ∀ t ∈ ts, t ≠ [] ∧ ∀ x ∈ t, x.isWhitespace = false) :
    tokenize (joinSp ts) = ts := by
  rw [tokenize_joinSp]
  have heq : ts.map tokenize = ts.map (fun t => [t]) := by
    apply List.map_congr_left
    intro t ht
    exact tokenize_token t (h t ht).1 (h t ht).2
  rw [heq, flatten_map_singleton]

/-! ## Lemmas about trimming and the sentence tokenizer -/

theorem tokenize_dropWhile_ws :
    ∀ s : Text, tokenize (s.dropWhile (·.isWhitespace)) = tokenize s
  | [] => rfl
  | c :: cs => by
    by_cases hc : c.isWhitespace
    · rw [List.dropWhile_cons]
      simp only [hc, if_true]
      rw [tokenize_dropWhile_ws cs, tokenize_ws_cons hc]
    · rw [List.dropWhile_cons]
      simp [hc]

theorem tokenize_all_ws : ∀ s : Text, (∀ x ∈ s, x.isWhitespace = true) → tokenize s = []
  | [], _ => rfl
  | c :: cs, h => by
    rw [tokenize_ws_cons (h c (by simp))]
    exact tokenize_all_ws cs (fun x hx => h x (by simp [hx]))

theorem tokenize_append_all_ws (a b : Text) (h : ∀ x ∈ b, x.isWhitespace = true) :
    tokenize (a ++ b) = tokenize a := by
  cases b with
  | nil => simp
  | cons c b' =>
    rw [tokenize_append_ws (h c (by simp)) a b',
      tokenize_all_ws b' (fun x hx => h x (by simp [hx]))]
    simp

theorem trimR_decomp (s : Text) :
    ∃ sfx, s = trimR s ++ sfx ∧ ∀ x ∈ sfx, x.isWhitespace = true := by
  refine ⟨(s.reverse.takeWhile (·.isWhitespace)).reverse, ?_, ?_⟩
  · have h := List.takeWhile_append_dropWhile (p := (·.isWhitespace)) (l := s.reverse)
    calc s = s.reverse.reverse := (List.reverse_reverse s).symm
      _ = (s.reverse.takeWhile (·.isWhitespace) ++
            s.reverse.dropWhile (·.isWhitespace)).reverse := by rw [h]
      _ = trimR s ++ (s.reverse.takeWhile (·.isWhitespace)).reverse := by
            rw [List.reverse_append]; rfl
  · intro x hx
    rw [List.mem_reverse] at hx
    simpa using List.mem_takeWhile_imp hx

theorem tokenize_trimR (s : Text) : tokenize (trimR s) = tokenize s := by
  obtain ⟨sfx, hs, hws⟩ := trimR_decomp s
  conv_rhs => rw [hs]
  rw [tokenize_append_all_ws _ _ hws]

theorem tokenize_trim (s : Text) : tokenize (trim s) = tokenize s := by
  rw [trim, trimL, tokenize_dropWhile_ws, tokenize_trimR]

theorem sentSplitAux_flatten :
    ∀ s acc : Text, (sentSplitAux s acc).flatten = acc.reverse ++ s
  | [], acc => by simp [sentSplitAux]
  | c :: cs, acc => by
    by_cases h : (isSentEnd c && (cs.isEmpty || headIsWs cs)) = true
    · simp [sentSplitAux, h, sentSplitAux_flatten cs []]
    · have hrec := sentSplitAux_flatten cs (c :: acc)
      simp only [sentSplitAux, h, if_false, Bool.false_eq_true] at hrec ⊢
      rw [hrec]
      simp

theorem sentSplitAux_tokenize :
    ∀ s acc : Text, ((sentSplitAux s acc).map tokenize).flatten = tokenize (acc.reverse ++ s)
  | [], acc => by simp [sentSplitAux]
  | c :: cs, acc => by
    by_cases h : (isSentEnd c && (cs.isEmpty || headIsWs cs)) = true
    · cases cs with
      | nil =>
        have hstep : sentSplitAux [c] acc = (c :: acc).reverse :: sentSplitAux [] [] := by
          simp only [sentSplitAux]
          rw [if_pos h]
        rw [hstep]
        simp [sentSplitAux, tokenize, tokenizeAux, List.reverse_cons]
      | cons d cs' =>
        have hd : d.isWhitespace = true := by
          simpa [headIsWs] using Bool.and_elim_right h
        have hrec := sentSplitAux_tokenize (d :: cs') []
        simp only [List.reverse_nil, List.nil_append] at hrec
        have hstep : sentSplitAux (c :: d :: cs') acc
            = (c :: acc).reverse :: sentSplitAux (d :: cs') [] := by
          simp only [sentSplitAux]
          rw [if_pos h]
        rw [hstep, List.map_cons, List.flatten_cons, hrec, tokenize_ws_cons hd]
        have hsplit : acc.reverse ++ c :: d :: cs' = (acc.reverse ++ [c]) ++ d :: cs' := by
          simp
        rw [hsplit, tokenize_append_ws hd]
        simp [List.reverse_cons]
    · have hrec := sentSplitAux_tokenize cs (c :: acc)
      simp only [sentSplitAux, h, if_false, Bool.false_eq_true] at hrec ⊢
      rw [hrec]
      simp

theorem flatten_tokenize_trim_filter :
    ∀ l : List Text, (((l.map trim).filter (· ≠ [])).map tokenize).flatten
      = (l.map tokenize).flatten
  | [] => rfl
  | s :: l => by
    by_cases h : trim s = []
    · have hts : tokenize s = [] := by rw [← tokenize_trim s, h]; rfl
      have hf : ((s :: l).map trim).filter (· ≠ []) = (l.map trim).filter (· ≠ []) := by
        simp [h]
      rw [hf, flatten_tokenize_trim_filter l, List.map_cons, List.flatten_cons, hts,
        List.nil_append]
    · have hf : ((s :: l).map trim).filter (· ≠ [])
          = trim s :: (l.map trim).filter (· ≠ []) := by
        simp [h]
      rw [hf, List.map_cons, List.flatten_cons, flatten_tokenize_trim_filter l,
        tokenize_trim, List.map_cons, List.flatten_cons]

theorem flatten_map_tokenize_sentTokenize (t : Text) :
    ((sentTokenize t).map tokenize).flatten = tokenize t := by
  rw [sentTokenize, flatten_tokenize_trim_filter, sentSplitAux_tokenize]
  simp

/-- The sentence-split re-join of `_adjust_length` is the identity at the
token level. -/
theorem tokenize_joinSp_sentTokenize (t : Text) :
    tokenize (joinSp (sentTokenize t)) = tokenize t := by
  rw [tokenize_joinSp, flatten_map_tokenize_sentTokenize]

/-! ## Lemmas about the filler loop and `_adjust_length` -/

theorem wordCount_append_sep (a post : Text) :
    wordCount (a ++ ' ' :: post) = wordCount a + wordCount post := by
  simp [wordCount, tokenize_append_ws (show (' ').isWhitespace = true by decide)]

theorem wordCount_append_mid (content pre post : Text) (h : 1 ≤ wordCount post) :
    wordCount content + 1 ≤ wordCount (content ++ (pre ++ ' ' :: post)) := by
  have h1 : content ++ (pre ++ ' ' :: post) = (content ++ pre) ++ ' ' :: post := by simp
  rw [h1, wordCount_append_sep]
  have h2 := wordCount_le_append content pre
  omega

theorem step_of_decomp {f : Text} (pre post : Text) (hf : f = pre ++ ' ' :: post)
    (hpost : 1 ≤ wordCount post) (content : Text) :
    wordCount content + 1 ≤ wordCount (content ++ f) := by
  rw [hf]
  exact wordCount_append_mid content pre post hpost

/-- Every filler of the `src/main.py` catalog adds at least one word. -/
theorem pickFrom_main_step (pick : Nat → Nat) (k : Nat) (content : Text) :
    wordCount content + 1 ≤ wordCount (content ++ pickFrom mainFillers pick k) := by
  simp only [pickFrom]
  have hi : pick k % mainFillers.length < 5 := Nat.mod_lt _ (by norm_num [mainFillers])
  revert hi
  generalize pick k % mainFillers.length = i
  intro hi
  interval_cases i
  · exact step_of_decomp ("This".data)
      ("demonstrates the practical value and application potential. ".data)
      (by decide) (by decide) content
  · exact step_of_decomp ("Many".data)
      ("industry experts recognize these patterns and trends. ".data)
      (by decide) (by decide) content
  · exact step_of_decomp ("The".data)
      ("evidence consistently supports these observations and conclusions. ".data)
      (by decide) (by decide) content
  · exact step_of_decomp ("Further".data)
      ("research and development continues to expand our understanding. ".data)
      (by decide) (by decide) content
  · exact step_of_decomp ("Real-world".data)
      ("implementations have shown promising results and outcomes. ".data)
      (by decide) (by decide) content

/-- Every filler of the `src/app.py` catalog adds at least one word. -/
theorem pickFrom_app_step (pick : Nat → Nat) (k : Nat) (content : Text) :
    wordCount content + 1 ≤ wordCount (content ++ pickFrom appFillers pick k) := by
  simp only [pickFrom]
  have hi : pick k % appFillers.length < 4 := Nat.mod_lt _ (by norm_num [appFillers])
  revert hi
  generalize pick k % appFillers.length = i
  intro hi
  interval_cases i
  · exact step_of_decomp ("This".data)
      ("demonstrates practical applications and value. ".data)
      (by decide) (by decide) content
  · exact step_of_decomp ("Many".data)
      ("experts recognize these patterns and developments. ".data)
      (by decide) (by decide) content
  · exact step_of_decomp ("Further".data)
      ("research continues to expand our understanding. ".data)
      (by decide) (by decide) content
  · exact step_of_decomp ("Real-world".data)
      ("implementations show promising results. ".data)
      (by decide) (by decide) content

/-- The filler loop reaches the target word count within `fuel` iterations
whenever `fuel` covers the missing word count (each appended filler adds at
least one word). -/
theorem padLoop_le (cat : List Text) (pick : Nat → Nat) (target : Nat)
    (hstep : ∀ content k, wordCount content + 1 ≤ wordCount (content ++ pickFrom cat pick k)) :
    ∀ (fuel k : Nat) (content : Text), target ≤ wordCount content + fuel →
      target ≤ wordCount (padLoop cat pick target fuel k content)
  | 0, k, content, h => by simpa [padLoop] using h
  | fuel + 1, k, content, h => by
    by_cases hc : target ≤ wordCount content
    · simp [padLoop, hc]
    · have hrec := padLoop_le cat pick target hstep fuel (k + 1)
        (content ++ pickFrom cat pick k) (by have := hstep content k; omega)
      simpa [padLoop, hc] using hrec

/-- Once the target is reached, the loop exits immediately. -/
theorem padLoop_exit (cat : List Text) (pick : Nat → Nat) (target : Nat) :
    ∀ (fuel k : Nat) (content : Text), target ≤ wordCount content →
      padLoop cat pick target fuel k content = content
  | 0, _, _, _ => rfl
  | fuel + 1, k, content, h => by simp [padLoop, h]

/-- Extra fuel beyond the missing word count never changes the result: the
`while` loop terminates within that many iterations. -/
theorem padLoop_stable (cat : List Text) (pick : Nat → Nat) (target : Nat)
    (hstep : ∀ content k, wordCount content + 1 ≤ wordCount (content ++ pickFrom cat pick k)) :
    ∀ (fuel extra k : Nat) (content : Text), target ≤ wordCount content + fuel →
      padLoop cat pick target (fuel + extra) k content = padLoop cat pick target fuel k content
  | 0, extra, k, content, h => by
    have h0 : target ≤ wordCount content := by simpa using h
    rw [Nat.zero_add, padLoop_exit cat pick target extra k content h0]
    rfl
  | fuel + 1, extra, k, content, h => by
    by_cases hc : target ≤ wordCount content
    · rw [padLoop_exit cat pick target _ k content hc,
        padLoop_exit cat pick target _ k content hc]
    · have hshift : fuel + 1 + extra = (fuel + extra) + 1 := by omega
      rw [hshift]
      have hrec := padLoop_stable cat pick target hstep fuel extra (k + 1)
        (content ++ pickFrom cat pick k) (by have := hstep content k; omega)
      simpa [padLoop, hc] using hrec

theorem tokenize_take_tokens (s : Text) (n : Nat) :
    tokenize (joinSp ((tokenize s).take n)) = (tokenize s).take n := by
  apply tokenize_joinSp_tokens
  intro t ht
  exact tokenize_tokens_wf s t (List.take_subset n _ ht)

theorem sentRejoin_tokens (trimmed : Text) :
    tokenize (if sentTokenize trimmed = [] then trimmed else joinSp (sentTokenize trimmed))
      = tokenize trimmed := by
  by_cases h : sentTokenize trimmed = [] <;> simp [h, tokenize_joinSp_sentTokenize]

/-- `_adjust_length` of `src/main.py` returns a text with exactly
`targetWords` words: the truncation takes exactly `targetWords` tokens and
the sentence re-join is a token-level identity. -/
theorem adjust_length_wordCount (pick : Nat → Nat) (content : Text) (target : Nat) :
    wordCount (adjust_length pick content target) = target := by
  rw [adjust_length]
  by_cases h : target ≤ (tokenize content).length
  · simp only [h, if_true, wordCount]
    rw [sentRejoin_tokens, tokenize_take_tokens]
    simpa using h
  · simp only [h, if_false, wordCount]
    rw [sentRejoin_tokens, tokenize_take_tokens]
    have hpad : target ≤ wordCount (padLoop mainFillers pick target target 0 content) :=
      padLoop_le mainFillers pick target (fun c k => pickFrom_main_step pick k c)
        target 0 content (by omega)
    simpa using hpad

/-- The same for `_adjust_length` of `src/app.py`. -/
theorem app_adjust_length_wordCount (pick : Nat → Nat) (content : Text) (target : Nat) :
    wordCount (app_adjust_length pick content target) = target := by
  rw [app_adjust_length]
  by_cases h : target ≤ (tokenize content).length
  · simp only [h, if_true, wordCount]
    rw [sentRejoin_tokens, tokenize_take_tokens]
    simpa using h
  · simp only [h, if_false, wordCount]
    rw [tokenize_take_tokens]
    have hpad : target ≤ wordCount (padLoop appFillers pick target target 0 content) :=
      padLoop_le appFillers pick target (fun c k => pickFrom_app_step pick k c)
        target 0 content (by omega)
    simpa using hpad

/-! ## Membership lemmas for joins, trims and sentence segments -/

theorem mem_joinSp (c : Char) : ∀ l : List Text, c ∈ joinSp l → c = ' ' ∨ ∃ t ∈ l, c ∈ t
  | [], h => by simp [joinSp] at h
  | [t], h => Or.inr ⟨t, by simp, by simpa [joinSp] using h⟩
  | t :: s :: ts, h => by
    have heq : joinSp (t :: s :: ts) = t ++ ' ' :: joinSp (s :: ts) := rfl
    rw [heq] at h
    rcases List.mem_append.mp h with h1 | h1
    · exact Or.inr ⟨t, by simp, h1⟩
    · rcases List.mem_cons.mp h1 with rfl | h2
      · exact Or.inl rfl
      · rcases mem_joinSp c (s :: ts) h2 with h3 | ⟨u, hu, hcu⟩
        · exact Or.inl h3
        · exact Or.inr ⟨u, List.mem_cons_of_mem _ hu, hcu⟩

theorem mem_joinSp_of_mem (c : Char) :
    ∀ (l : List Text) (t : Text), t ∈ l → c ∈ t → c ∈ joinSp l
  | [], t, ht, _ => by simp at ht
  | [u], t, ht, hc => by
    simp at ht
    subst ht
    simpa [joinSp] using hc
  | u :: s :: ts, t, ht, hc => by
    have heq : joinSp (u :: s :: ts) = u ++ ' ' :: joinSp (s :: ts) := rfl
    rw [heq]
    rcases List.mem_cons.mp ht with rfl | ht'
    · exact List.mem_append.mpr (Or.inl hc)
    · exact List.mem_append.mpr (Or.inr
        (List.mem_cons_of_mem _ (mem_joinSp_of_mem c (s :: ts) t ht' hc)))

theorem mem_joinChar (sep c : Char) :
    ∀ l : List Text, c ∈ joinChar sep l → c = sep ∨ ∃ t ∈ l, c ∈ t
  | [], h => by simp [joinChar] at h
  | [t], h => Or.inr ⟨t, by simp, by simpa [joinChar] using h⟩
  | t :: s :: ts, h => by
    have heq : joinChar sep (t :: s :: ts) = t ++ sep :: joinChar sep (s :: ts) := rfl
    rw [heq] at h
    rcases List.mem_append.mp h with h1 | h1
    · exact Or.inr ⟨t, by simp, h1⟩
    · rcases List.mem_cons.mp h1 with rfl | h2
      · exact Or.inl rfl
      · rcases mem_joinChar sep c (s :: ts) h2 with h3 | ⟨u, hu, hcu⟩
        · exact Or.inl h3
        · exact Or.inr ⟨u, List.mem_cons_of_mem _ hu, hcu⟩

theorem trimL_subset (s : Text) : trimL s ⊆ s := (List.dropWhile_sublist _).subset

theorem trimR_subset (s : Text) : trimR s ⊆ s := by
  intro x hx
  rw [trimR, List.mem_reverse] at hx
  have := trimL_subset s.reverse hx
  rwa [List.mem_reverse] at this

theorem trim_subset (s : Text) : trim s ⊆ s := by
  intro x hx
  exact trimR_subset s (trimL_subset (trimR s) hx)

theorem mem_dropWhile_of_not (p : Char → Bool) :
    ∀ (l : Text) (c : Char), c ∈ l → p c = false → c ∈ l.dropWhile p
  | [], c, hc, _ => by simp at hc
  | x :: l, c, hc, hp => by
    rw [List.dropWhile_cons]
    by_cases hx : p x
    · simp only [hx, if_true]
      rcases List.mem_cons.mp hc with rfl | hc'
      · rw [hx] at hp; cases hp
      · exact mem_dropWhile_of_not p l c hc' hp
    · simp [hx, hc]

theorem mem_trim_of_not_ws {s : Text} {c : Char} (hc : c ∈ s)
    (hw : c.isWhitespace = false) : c ∈ trim s := by
  have h1 : c ∈ trimR s := by
    rw [trimR, List.mem_reverse]
    exact mem_dropWhile_of_not _ s.reverse c (List.mem_reverse.mpr hc) (by simpa using hw)
  exact mem_dropWhile_of_not _ (trimR s) c h1 (by simpa using hw)

theorem dropWhile_head_false (p : Char → Bool) :
    ∀ (l : Text) (c : Char) (rest : Text), l.dropWhile p = c :: rest → p c = false
  | [], c, rest, h => by simp at h
  | x :: l, c, rest, h => by
    rw [List.dropWhile_cons] at h
    by_cases hx : p x
    · simp only [hx, if_true] at h
      exact dropWhile_head_false p l c rest h
    · rw [if_neg hx] at h
      cases h
      simpa using hx

theorem mem_sentTokenize {t s : Text} (hs : s ∈ sentTokenize t) : s ⊆ t := by
  intro c hc
  rw [sentTokenize] at hs
  have hs1 := (List.mem_filter.mp hs).1
  obtain ⟨raw, hraw, heq⟩ := List.mem_map.mp hs1
  have hcraw : c ∈ raw := trim_subset raw (heq ▸ hc)
  have hflat : c ∈ (sentSplitAux t []).flatten := List.mem_flatten.mpr ⟨raw, hraw, hcraw⟩
  rw [sentSplitAux_flatten] at hflat
  simpa using hflat

theorem sentTokenize_elem_wf {t s : Text} (hs : s ∈ sentTokenize t) :
    s ≠ [] ∧ ∃ c ∈ s, c.isWhitespace = false := by
  rw [sentTokenize] at hs
  have hne : s ≠ [] := by
    have := (List.mem_filter.mp hs).2
    simpa using this
  refine ⟨hne, ?_⟩
  obtain ⟨raw, _, heq⟩ := List.mem_map.mp (List.mem_filter.mp hs).1
  rcases hhead : s with _ | ⟨c, rest⟩
  · exact absurd hhead hne
  · refine ⟨c, by simp, ?_⟩
    have : trimL (trimR raw) = c :: rest := by rw [← trim]; rw [heq]; exact hhead
    have := dropWhile_head_false _ (trimR raw) c rest this
    simpa using this

theorem sentTokenize_ne_nil {t : Text} (h : ∃ c ∈ t, c.isWhitespace = false) :
    sentTokenize t ≠ [] := by
  obtain ⟨c, hct, hw⟩ := h
  have hflat : c ∈ (sentSplitAux t []).flatten := by
    rw [sentSplitAux_flatten]; simpa using hct
  obtain ⟨raw, hraw, hcraw⟩ := List.mem_flatten.mp hflat
  have htrim : c ∈ trim raw := mem_trim_of_not_ws hcraw hw
  have hmem : trim raw ∈ sentTokenize t := by
    rw [sentTokenize]
    refine List.mem_filter.mpr ⟨List.mem_map.mpr ⟨raw, hraw, rfl⟩, ?_⟩
    simpa using List.ne_nil_of_mem htrim
  exact List.ne_nil_of_mem hmem

theorem tokenizeAux_mem_subset :
    ∀ (s acc tok : Text), tok ∈ tokenizeAux s acc → ∀ x ∈ tok, x ∈ s ∨ x ∈ acc
  | [], acc, tok, htok, x, hx => by
    by_cases h : acc = []
    · simp [tokenizeAux, h] at htok
    · simp [tokenizeAux, h] at htok
      subst htok
      exact Or.inr (by simpa using hx)
  | c :: cs, acc, tok, htok, x, hx => by
    by_cases hc : c.isWhitespace
    · by_cases h : acc = []
      · rcases tokenizeAux_mem_subset cs [] tok
            (by simpa [tokenizeAux, hc, h] using htok) x hx with h1 | h1
        · exact Or.inl (List.mem_cons_of_mem _ h1)
        · simp at h1
      · simp only [tokenizeAux, hc, if_true, if_neg h, List.mem_cons] at htok
        rcases htok with heq | htok
        · subst heq
          exact Or.inr (by simpa using hx)
        · rcases tokenizeAux_mem_subset cs [] tok htok x hx with h1 | h1
          · exact Or.inl (List.mem_cons_of_mem _ h1)
          · simp at h1
    · rcases tokenizeAux_mem_subset cs (c :: acc) tok
          (by simpa [tokenizeAux, hc] using htok) x hx with h1 | h1
      · exact Or.inl (List.mem_cons_of_mem _ h1)
      · rcases List.mem_cons.mp h1 with rfl | h2
        · exact Or.inl (by simp)
        · exact Or.inr h2

theorem mem_of_mem_tokenize {s tok : Text} {x : Char}
    (htok : tok ∈ tokenize s) (hx : x ∈ tok) : x ∈ s := by
  rcases tokenizeAux_mem_subset s [] tok htok x hx with h | h
  · exact h
  · simp at h

theorem mem_flatten_tokenizeAux :
    ∀ (s acc : Text) (x : Char), (x ∈ s ∨ x ∈ acc) → x.isWhitespace = false →
      x ∈ (tokenizeAux s acc).flatten
  | [], acc, x, hmem, hw => by
    rcases hmem with h | h
    · simp at h
    · have hacc : acc ≠ [] := List.ne_nil_of_mem h
      simp [tokenizeAux, hacc]
      simpa using h
  | c :: cs, acc, x, hmem, hw => by
    by_cases hc : c.isWhitespace
    · have hxc : x ≠ c := by
        intro heq
        rw [heq] at hw
        rw [hw] at hc
        cases hc
      have hmem' : x ∈ cs ∨ x ∈ acc := by
        rcases hmem with h | h
        · rcases List.mem_cons.mp h with heq | h'
          · exact absurd heq hxc
          · exact Or.inl h'
        · exact Or.inr h
      by_cases h : acc = []
      · subst h
        have := mem_flatten_tokenizeAux cs [] x (by simpa using hmem') hw
        simpa [tokenizeAux, hc] using this
      · rcases hmem' with h1 | h1
        · have := mem_flatten_tokenizeAux cs [] x (Or.inl h1) hw
          simp [tokenizeAux, hc, h]
          right
          simpa using this
        · simp [tokenizeAux, hc, h]
          left
          simpa using h1
    · have : x ∈ cs ∨ x ∈ c :: acc := by
        rcases hmem with h | h
        · rcases List.mem_cons.mp h with heq | h'
          · exact Or.inr (by simp [heq])
          · exact Or.inl h'
        · exact Or.inr (List.mem_cons_of_mem _ h)
      have := mem_flatten_tokenizeAux cs (c :: acc) x this hw
      simpa [tokenizeAux, hc] using this

theorem exists_nonws_of_wordCount_pos {s : Text} (h : 1 ≤ wordCount s) :
    ∃ x ∈ s, x.isWhitespace = false := by
  rw [wordCount] at h
  rcases heq : tokenize s with _ | ⟨tok, rest⟩
  · rw [heq] at h; simp at h
  · have htokmem : tok ∈ tokenize s := by rw [heq]; simp
    obtain ⟨hne, hnw⟩ := tokenize_tokens_wf s tok htokmem
    rcases htok : tok with _ | ⟨y, ys⟩
    · exact absurd htok hne
    · refine ⟨y, mem_of_mem_tokenize htokmem (by simp [htok]), ?_⟩
      exact hnw y (by simp [htok])

/-! ## Character lemmas for the replacement passes -/

theorem mem_replaceCIFuel (pat rep : Text) :
    ∀ (fuel : Nat) (pw : Bool) (t : Text) (x : Char),
      x ∈ replaceCIFuel pat rep fuel pw t → x ∈ t ∨ x ∈ rep
  | 0, _, t, x, h => Or.inl h
  | fuel + 1, pw, [], x, h => by simp [replaceCIFuel] at h
  | fuel + 1, pw, c :: cs, x, h => by
    by_cases hm : (ciBegMatch pat (c :: cs) && !pw && wordBoundaryAfter pat (c :: cs)) = true
    · simp only [replaceCIFuel] at h
      rw [if_pos hm] at h
      rcases List.mem_append.mp h with h1 | h1
      · exact Or.inr h1
      · rcases mem_replaceCIFuel pat rep fuel (patEndWord pat)
            ((c :: cs).drop pat.length) x h1 with h2 | h2
        · exact Or.inl (List.drop_subset _ _ h2)
        · exact Or.inr h2
    · simp only [replaceCIFuel] at h
      rw [if_neg hm] at h
      rcases List.mem_cons.mp h with rfl | h1
      · exact Or.inl (by simp)
      · rcases mem_replaceCIFuel pat rep fuel (isWordChar c) cs x h1 with h2 | h2
        · exact Or.inl (List.mem_cons_of_mem _ h2)
        · exact Or.inr h2

theorem mem_replacePlainFuel (pat rep : Text) :
    ∀ (fuel : Nat) (t : Text) (x : Char),
      x ∈ replacePlainFuel pat rep fuel t → x ∈ t ∨ x ∈ rep
  | 0, t, x, h => Or.inl h
  | fuel + 1, [], x, h => by simp [replacePlainFuel] at h
  | fuel + 1, c :: cs, x, h => by
    by_cases hm : (begMatch pat (c :: cs)) = true
    · simp only [replacePlainFuel] at h
      rw [if_pos hm] at h
      rcases List.mem_append.mp h with h1 | h1
      · exact Or.inr h1
      · rcases mem_replacePlainFuel pat rep fuel ((c :: cs).drop pat.length) x h1 with h2 | h2
        · exact Or.inl (List.drop_subset _ _ h2)
        · exact Or.inr h2
    · simp only [replacePlainFuel] at h
      rw [if_neg hm] at h
      rcases List.mem_cons.mp h with rfl | h1
      · exact Or.inl (by simp)
      · rcases mem_replacePlainFuel pat rep fuel cs x h1 with h2 | h2
        · exact Or.inl (List.mem_cons_of_mem _ h2)
        · exact Or.inr h2

theorem exists_nonws_replaceCIFuel (pat rep : Text)
    (hrep : ∃ x ∈ rep, x.isWhitespace = false) :
    ∀ (fuel : Nat) (pw : Bool) (t : Text), (∃ x ∈ t, x.isWhitespace = false) →
      ∃ x ∈ replaceCIFuel pat rep fuel pw t, x.isWhitespace = false
  | 0, _, t, ht => ht
  | fuel + 1, pw, [], ht => by obtain ⟨x, hx, _⟩ := ht; simp at hx
  | fuel + 1, pw, c :: cs, ht => by
    by_cases hm : (ciBegMatch pat (c :: cs) && !pw && wordBoundaryAfter pat (c :: cs)) = true
    · simp only [replaceCIFuel]
      rw [if_pos hm]
      obtain ⟨y, hy, hyw⟩ := hrep
      exact ⟨y, List.mem_append.mpr (Or.inl hy), hyw⟩
    · simp only [replaceCIFuel]
      rw [if_neg hm]
      by_cases hcw : c.isWhitespace
      · obtain ⟨x, hx, hxw⟩ := ht
        have hx' : x ∈ cs := by
          rcases List.mem_cons.mp hx with rfl | h1
          · rw [hxw] at hcw; cases hcw
          · exact h1
        obtain ⟨z, hz, hzw⟩ := exists_nonws_replaceCIFuel pat rep hrep fuel
          (isWordChar c) cs ⟨x, hx', hxw⟩
        exact ⟨z, List.mem_cons_of_mem _ hz, hzw⟩
      · exact ⟨c, by simp, by simpa using hcw⟩

theorem exists_nonws_replacePlainFuel (pat rep : Text)
    (hrep : ∃ x ∈ rep, x.isWhitespace = false) :
    ∀ (fuel : Nat) (t : Text), (∃ x ∈ t, x.isWhitespace = false) →
      ∃ x ∈ replacePlainFuel pat rep fuel t, x.isWhitespace = false
  | 0, t, ht => ht
  | fuel + 1, [], ht => by obtain ⟨x, hx, _⟩ := ht; simp at hx
  | fuel + 1, c :: cs, ht => by
    by_cases hm : (begMatch pat (c :: cs)) = true
    · simp only [replacePlainFuel]
      rw [if_pos hm]
      obtain ⟨y, hy, hyw⟩ := hrep
      exact ⟨y, List.mem_append.mpr (Or.inl hy), hyw⟩
    · simp only [replacePlainFuel]
      rw [if_neg hm]
      by_cases hcw : c.isWhitespace
      · obtain ⟨x, hx, hxw⟩ := ht
        have hx' : x ∈ cs := by
          rcases List.mem_cons.mp hx with rfl | h1
          · rw [hxw] at hcw; cases hcw
          · exact h1
        obtain ⟨z, hz, hzw⟩ := exists_nonws_replacePlainFuel pat rep hrep fuel cs ⟨x, hx', hxw⟩
        exact ⟨z, List.mem_cons_of_mem _ hz, hzw⟩
      · exact ⟨c, by simp, by simpa using hcw⟩

theorem mem_applyPairsCI :
    ∀ (prs : List (Text × Text)) (t : Text) (x : Char),
      x ∈ applyPairsCI prs t → x ∈ t ∨ ∃ pr ∈ prs, x ∈ pr.2
  | [], _, _, h => Or.inl h
  | pr :: prs, t, x, h => by
    rcases mem_applyPairsCI prs (replaceCI pr.1 pr.2 t) x h with h2 | ⟨q, hq, hxq⟩
    · rcases mem_replaceCIFuel pr.1 pr.2 t.length false t x h2 with h3 | h3
      · exact Or.inl h3
      · exact Or.inr ⟨pr, by simp, h3⟩
    · exact Or.inr ⟨q, List.mem_cons_of_mem _ hq, hxq⟩

theorem mem_applyPairs :
    ∀ (prs : List (Text × Text)) (t : Text) (x : Char),
      x ∈ applyPairs prs t → x ∈ t ∨ ∃ pr ∈ prs, x ∈ pr.2
  | [], _, _, h => Or.inl h
  | pr :: prs, t, x, h => by
    rcases mem_applyPairs prs (replacePlain pr.1 pr.2 t) x h with h2 | ⟨q, hq, hxq⟩
    · rcases mem_replacePlainFuel pr.1 pr.2 t.length t x h2 with h3 | h3
      · exact Or.inl h3
      · exact Or.inr ⟨pr, by simp, h3⟩
    · exact Or.inr ⟨q, List.mem_cons_of_mem _ hq, hxq⟩

theorem exists_nonws_applyPairsCI :
    ∀ (prs : List (Text × Text)), (∀ pr ∈ prs, ∃ x ∈ pr.2, x.isWhitespace = false) →
      ∀ t : Text, (∃ x ∈ t, x.isWhitespace = false) →
        ∃ x ∈ applyPairsCI prs t, x.isWhitespace = false
  | [], _, _, ht => ht
  | pr :: prs, hreps, t, ht =>
    exists_nonws_applyPairsCI prs (fun q hq => hreps q (List.mem_cons_of_mem _ hq))
      (replaceCI pr.1 pr.2 t)
      (exists_nonws_replaceCIFuel pr.1 pr.2 (hreps pr (by simp)) t.length false t ht)

theorem exists_nonws_applyPairs :
    ∀ (prs : List (Text × Text)), (∀ pr ∈ prs, ∃ x ∈ pr.2, x.isWhitespace = false) →
      ∀ t : Text, (∃ x ∈ t, x.isWhitespace = false) →
        ∃ x ∈ applyPairs prs t, x.isWhitespace = false
  | [], _, _, ht => ht
  | pr :: prs, hreps, t, ht =>
    exists_nonws_applyPairs prs (fun q hq => hreps q (List.mem_cons_of_mem _ hq))
      (replacePlain pr.1 pr.2 t)
      (exists_nonws_replacePlainFuel pr.1 pr.2 (hreps pr (by simp)) t.length t ht)

/-! ## Character lemmas for `_humanize_content` and `_format_content` -/

theorem snd_mem_enumFrom {α : Type} :
    ∀ (l : List α) (n i : Nat) (a : α), (i, a) ∈ l.enumFrom n → a ∈ l
  | [], _, _, _, h => by simp at h
  | b :: l, n, i, a, h => by
    rcases List.mem_cons.mp h with heq | h1
    · injection heq with h2 h3
      subst h3
      simp
    · exact List.mem_cons_of_mem _ (snd_mem_enumFrom l (n + 1) i a h1)

theorem getD_mem_of_lt {l : List Text} {i : Nat} (h : i < l.length) (d : Text) :
    l.getD i d ∈ l := by
  rw [List.getD_eq_getElem l d h]
  exact List.getElem_mem h

theorem transitions_getD_mem (m : Nat) :
    transitionsList.getD (m % transitionsList.length) [] ∈ transitionsList :=
  getD_mem_of_lt (Nat.mod_lt _ (by norm_num [transitionsList])) []

/-- Character provenance for `_humanize_content`: every output character is
a space, a character of the input, a character of one of the substitution
targets, or a character of a transition phrase. -/
theorem mem_humanize_content (content tone : Text) (flip : Nat → Bool) (pickT : Nat → Nat)
    {x : Char} (hx : x ∈ humanize_content content tone flip pickT) :
    x = ' ' ∨ x ∈ content
      ∨ (∃ pr ∈ humanizeReplacements, x ∈ pr.2)
      ∨ (∃ pr ∈ casualRepl, x ∈ pr.2) ∨ (∃ pr ∈ academicRepl, x ∈ pr.2)
      ∨ (∃ pr ∈ creativeRepl, x ∈ pr.2)
      ∨ (∃ tr ∈ transitionsList, x ∈ tr) := by
  simp only [humanize_content] at hx
  set t1 := applyPairsCI humanizeReplacements content with ht1
  set t2 := (if tone = "casual".data then applyPairs casualRepl t1
      else if tone = "academic".data then applyPairs academicRepl t1
      else if tone = "creative".data then applyPairs creativeRepl t1 else t1) with ht2
  have ht2mem : x ∈ t2 →
      x ∈ content
        ∨ (∃ pr ∈ humanizeReplacements, x ∈ pr.2)
        ∨ (∃ pr ∈ casualRepl, x ∈ pr.2) ∨ (∃ pr ∈ academicRepl, x ∈ pr.2)
        ∨ (∃ pr ∈ creativeRepl, x ∈ pr.2) := by
    intro hxt2
    have ht1mem : x ∈ t1 →
        x ∈ content ∨ (∃ pr ∈ humanizeReplacements, x ∈ pr.2) := by
      intro hxt1
      exact mem_applyPairsCI humanizeReplacements content x hxt1
    rw [ht2] at hxt2
    split_ifs at hxt2 with hc ha hcr
    · rcases mem_applyPairs casualRepl t1 x hxt2 with h1 | h1
      · rcases ht1mem h1 with h2 | h2
        · exact Or.inl h2
        · exact Or.inr (Or.inl h2)
      · exact Or.inr (Or.inr (Or.inl h1))
    · rcases mem_applyPairs academicRepl t1 x hxt2 with h1 | h1
      · rcases ht1mem h1 with h2 | h2
        · exact Or.inl h2
        · exact Or.inr (Or.inl h2)
      · exact Or.inr (Or.inr (Or.inr (Or.inl h1)))
    · rcases mem_applyPairs creativeRepl t1 x hxt2 with h1 | h1
      · rcases ht1mem h1 with h2 | h2
        · exact Or.inl h2
        · exact Or.inr (Or.inl h2)
      · exact Or.inr (Or.inr (Or.inr (Or.inr h1)))
    · rcases ht1mem hxt2 with h2 | h2
      · exact Or.inl h2
      · exact Or.inr (Or.inl h2)
  rcases mem_joinSp x _ hx with h1 | ⟨s', hs', hxs'⟩
  · exact Or.inl h1
  have hsent : ∀ u : Text, u ∈ sentTokenize t2 → x ∈ u →
      x ∈ content
        ∨ (∃ pr ∈ humanizeReplacements, x ∈ pr.2)
        ∨ (∃ pr ∈ casualRepl, x ∈ pr.2) ∨ (∃ pr ∈ academicRepl, x ∈ pr.2)
        ∨ (∃ pr ∈ creativeRepl, x ∈ pr.2) := by
    intro u hu hxu
    exact ht2mem (mem_sentTokenize hu hxu)
  by_cases hlen : 3 < (sentTokenize t2).length
  · rw [if_pos hlen] at hs'
    obtain ⟨p, hp, heq⟩ := List.mem_map.mp hs'
    by_cases hcond : (decide (1 ≤ p.1) && decide (p.1 < (sentTokenize t2).length - 1)
        && flip p.1) = true
    · rw [if_pos hcond] at heq
      rw [← heq] at hxs'
      rcases List.mem_append.mp hxs' with h2 | h2
      · exact Or.inr (Or.inr (Or.inr (Or.inr (Or.inr (Or.inr
          ⟨_, transitions_getD_mem (pickT p.1), h2⟩)))))
      · rcases List.mem_cons.mp h2 with rfl | h3
        · exact Or.inl rfl
        · have hp2 : p.2 ∈ sentTokenize t2 := by
            rcases p with ⟨i, a⟩
            exact snd_mem_enumFrom _ 0 i a hp
          rcases hsent p.2 hp2 h3 with h4 | h4 | h4 | h4 | h4
          · exact Or.inr (Or.inl h4)
          · exact Or.inr (Or.inr (Or.inl h4))
          · exact Or.inr (Or.inr (Or.inr (Or.inl h4)))
          · exact Or.inr (Or.inr (Or.inr (Or.inr (Or.inl h4))))
          · exact Or.inr (Or.inr (Or.inr (Or.inr (Or.inr (Or.inl h4)))))
    · rw [if_neg hcond] at heq
      rw [← heq] at hxs'
      have hp2 : p.2 ∈ sentTokenize t2 := by
        rcases p with ⟨i, a⟩
        exact snd_mem_enumFrom _ 0 i a hp
      rcases hsent p.2 hp2 hxs' with h4 | h4 | h4 | h4 | h4
      · exact Or.inr (Or.inl h4)
      · exact Or.inr (Or.inr (Or.inl h4))
      · exact Or.inr (Or.inr (Or.inr (Or.inl h4)))
      · exact Or.inr (Or.inr (Or.inr (Or.inr (Or.inl h4))))
      · exact Or.inr (Or.inr (Or.inr (Or.inr (Or.inr (Or.inl h4)))))
  · rw [if_neg hlen] at hs'
    rcases hsent s' hs' hxs' with h4 | h4 | h4 | h4 | h4
    · exact Or.inr (Or.inl h4)
    · exact Or.inr (Or.inr (Or.inl h4))
    · exact Or.inr (Or.inr (Or.inr (Or.inl h4)))
    · exact Or.inr (Or.inr (Or.inr (Or.inr (Or.inl h4))))
    · exact Or.inr (Or.inr (Or.inr (Or.inr (Or.inr (Or.inl h4)))))

theorem humanize_no_nl (content tone : Text) (flip : Nat → Bool) (pickT : Nat → Nat)
    (h : ('\n') ∉ content) :
    ('\n') ∉ humanize_content content tone flip pickT := by
  intro hmem
  rcases mem_humanize_content content tone flip pickT hmem with
    h1 | h1 | h1 | h1 | h1 | h1 | h1
  · exact absurd h1 (by decide)
  · exact h h1
  · exact absurd h1 (by decide)
  · exact absurd h1 (by decide)
  · exact absurd h1 (by decide)
  · exact absurd h1 (by decide)
  · exact absurd h1 (by decide)

theorem humanize_exists_nonws (content tone : Text) (flip : Nat → Bool) (pickT : Nat → Nat)
    (h : ∃ x ∈ content, x.isWhitespace = false) :
    ∃ x ∈ humanize_content content tone flip pickT, x.isWhitespace = false := by
  simp only [humanize_content]
  set t1 := applyPairsCI humanizeReplacements content with ht1
  have h1 : ∃ x ∈ t1, x.isWhitespace = false :=
    exists_nonws_applyPairsCI humanizeReplacements (by decide) content h
  set t2 := (if tone = "casual".data then applyPairs casualRepl t1
      else if tone = "academic".data then applyPairs academicRepl t1
      else if tone = "creative".data then applyPairs creativeRepl t1 else t1) with ht2
  have h2 : ∃ x ∈ t2, x.isWhitespace = false := by
    rw [ht2]
    split_ifs with hc ha hcr
    · exact exists_nonws_applyPairs casualRepl (by decide) t1 h1
    · exact exists_nonws_applyPairs academicRepl (by decide) t1 h1
    · exact exists_nonws_applyPairs creativeRepl (by decide) t1 h1
    · exact h1
  rcases hsents : sentTokenize t2 with _ | ⟨s0, rest⟩
  · exact absurd hsents (sentTokenize_ne_nil h2)
  obtain ⟨-, c, hc, hcw⟩ :=
    sentTokenize_elem_wf (t := t2) (s := s0) (by rw [hsents]; simp)
  by_cases hlen : 3 < (s0 :: rest).length
  · rw [if_pos hlen]
    have hhead : (((s0 :: rest).enum.map (fun p =>
        if 1 ≤ p.1 && p.1 < (s0 :: rest).length - 1 && flip p.1 then
          transitionsList.getD (pickT p.1 % transitionsList.length) [] ++ ' ' :: p.2
        else p.2))) = s0 :: ((List.enumFrom 1 rest).map (fun p =>
        if 1 ≤ p.1 && p.1 < (s0 :: rest).length - 1 && flip p.1 then
          transitionsList.getD (pickT p.1 % transitionsList.length) [] ++ ' ' :: p.2
        else p.2)) := by
      simp [List.enum]
    rw [hhead]
    exact ⟨c, mem_joinSp_of_mem c _ s0 (by simp) hc, hcw⟩
  · rw [if_neg hlen]
    exact ⟨c, mem_joinSp_of_mem c _ s0 (by simp) hc, hcw⟩

theorem collapseFuel_id : ∀ (fuel : Nat) (t : Text), ('\n') ∉ t → collapseFuel fuel t = t
  | 0, _, _ => rfl
  | _ + 1, [], _ => rfl
  | fuel + 1, c :: cs, h => by
    have hc : ¬((c == '\n') = true) := by
      simp only [beq_iff_eq]
      rintro rfl
      exact h (by simp)
    simp only [collapseFuel]
    rw [if_neg hc, collapseFuel_id fuel cs (fun hm => h (List.mem_cons_of_mem _ hm))]

theorem splitCharAux_single (sep : Char) :
    ∀ (t acc : Text), (∀ x ∈ t, x ≠ sep) → splitCharAux sep t acc = [acc.reverse ++ t]
  | [], acc, _ => by simp [splitCharAux]
  | c :: cs, acc, h => by
    have hc : ¬((c == sep) = true) := by simpa using h c (by simp)
    simp only [splitCharAux]
    rw [if_neg hc,
      splitCharAux_single sep cs (c :: acc) (fun x hx => h x (List.mem_cons_of_mem _ hx))]
    simp

theorem splitChar_single (sep : Char) (t : Text) (h : ∀ x ∈ t, x ≠ sep) :
    splitChar sep t = [t] := by
  simpa [splitChar] using splitCharAux_single sep t [] h

theorem format_eq_processLine (t : Text) (h : ('\n') ∉ t) :
    format_content t = processLine t := by
  simp only [format_content, collapseBlank]
  rw [collapseFuel_id t.length t h,
    splitChar_single '\n' t (fun x hx heq => h (heq ▸ hx))]
  rfl

theorem mem_boldFirst {x : Char} :
    ∀ (ws' : List Text) (w' : Text), w' ∈ boldFirst ws' → x ∈ w' → x = '*' ∨ ∃ w ∈ ws', x ∈ w
  | [], w', hw', _ => by simp [boldFirst] at hw'
  | w :: ws', u, hu, hx => by
    have hstar : ∀ hmem : x ∈ "**".data, x = '*' := by
      intro hmem
      simpa using hmem
    by_cases ht : pyLower w ∈ triggerWords
    · simp only [boldFirst, if_pos ht] at hu
      rcases List.mem_cons.mp hu with rfl | h1
      · rcases List.mem_append.mp hx with h2 | h2
        · rcases List.mem_append.mp h2 with h3 | h3
          · exact Or.inl (hstar h3)
          · exact Or.inr ⟨w, by simp, h3⟩
        · exact Or.inl (hstar h2)
      · exact Or.inr ⟨u, List.mem_cons_of_mem _ h1, hx⟩
    · simp only [boldFirst, if_neg ht] at hu
      rcases List.mem_cons.mp hu with rfl | h1
      · exact Or.inr ⟨u, by simp, hx⟩
      · rcases mem_boldFirst ws' u h1 hx with h2 | ⟨v, hv, hxv⟩
        · exact Or.inl h2
        · exact Or.inr ⟨v, List.mem_cons_of_mem _ hv, hxv⟩

theorem boldFirst_keeps_token :
    ∀ (ws' : List Text) (tok : Text), tok ∈ ws' →
      ∃ w' ∈ boldFirst ws', ∀ y ∈ tok, y ∈ w'
  | [], tok, h => by simp at h
  | w :: ws', tok, h => by
    by_cases ht : pyLower w ∈ triggerWords
    · rcases List.mem_cons.mp h with rfl | h1
      · refine ⟨"**".data ++ tok ++ "**".data, by simp [boldFirst, ht], ?_⟩
        intro y hy
        exact List.mem_append.mpr (Or.inl (List.mem_append.mpr (Or.inr hy)))
      · exact ⟨tok, by simp [boldFirst, ht, h1], fun y hy => hy⟩
    · rcases List.mem_cons.mp h with rfl | h1
      · exact ⟨tok, by simp [boldFirst, ht], fun y hy => hy⟩
      · obtain ⟨w', hw', hsub⟩ := boldFirst_keeps_token ws' tok h1
        exact ⟨w', by simp [boldFirst, ht, hw'], hsub⟩

theorem mem_processLine {line : Text} {x : Char} (h : x ∈ processLine line) :
    x ∈ line ∨ x = '*' ∨ x = ' ' := by
  simp only [processLine] at h
  by_cases htr : (triggerWords.any (fun w => isSubstr w (pyLower line))) = true
  · rw [if_pos htr] at h
    rcases mem_joinSp x _ h with h1 | ⟨w', hw', hx⟩
    · exact Or.inr (Or.inr h1)
    · rcases mem_boldFirst (tokenize line) w' hw' hx with h2 | ⟨tok, htok, hxtok⟩
      · exact Or.inr (Or.inl h2)
      · exact Or.inl (mem_of_mem_tokenize htok hxtok)
  · rw [if_neg htr] at h
    exact Or.inl h

theorem exists_nonws_processLine (line : Text) (h : ∃ x ∈ line, x.isWhitespace = false) :
    ∃ x ∈ processLine line, x.isWhitespace = false := by
  simp only [processLine]
  split_ifs with htr
  · obtain ⟨x, hx, hxw⟩ := h
    have hxtok : x ∈ (tokenize line).flatten :=
      mem_flatten_tokenizeAux line [] x (Or.inl hx) hxw
    obtain ⟨tok, htok, hxtok'⟩ := List.mem_flatten.mp hxtok
    obtain ⟨w', hw', hsub⟩ := boldFirst_keeps_token (tokenize line) tok htok
    exact ⟨x, mem_joinSp_of_mem x _ w' hw' (hsub x hxtok'), hxw⟩
  · exact h

theorem format_no_nl (t : Text) (h : ('\n') ∉ t) : ('\n') ∉ format_content t := by
  rw [format_eq_processLine t h]
  intro hm
  rcases mem_processLine hm with h1 | h1 | h1
  · exact h h1
  · exact absurd h1 (by decide)
  · exact absurd h1 (by decide)

theorem format_exists_nonws (t : Text) (hnl : ('\n') ∉ t)
    (h : ∃ x ∈ t, x.isWhitespace = false) :
    ∃ x ∈ format_content t, x.isWhitespace = false := by
  rw [format_eq_processLine t hnl]
  exact exists_nonws_processLine t h

theorem no_nl_joinSp_tokens (s : Text) (n : Nat) :
    ('\n') ∉ joinSp ((tokenize s).take n) := by
  intro h
  rcases mem_joinSp _ _ h with h1 | ⟨tok, htok, hx⟩
  · exact absurd h1 (by decide)
  · have := (tokenize_tokens_wf s tok (List.take_subset n _ htok)).2 _ hx
    exact absurd this (by decide)

theorem no_nl_sentRejoin (trimmed : Text) (hnl : ('\n') ∉ trimmed) :
    ('\n') ∉ (if sentTokenize trimmed = [] then trimmed
      else joinSp (sentTokenize trimmed)) := by
  split_ifs with hs
  · exact hnl
  · intro hm
    rcases mem_joinSp _ _ hm with h1 | ⟨u, hu, hx⟩
    · exact absurd h1 (by decide)
    · exact hnl (mem_sentTokenize hu hx)

theorem adjust_length_no_nl (pick : Nat → Nat) (content : Text) (target : Nat) :
    ('\n') ∉ adjust_length pick content target := by
  simp only [adjust_length]
  by_cases hlen : target ≤ (tokenize content).length
  · rw [if_pos hlen]
    exact no_nl_sentRejoin _ (no_nl_joinSp_tokens content target)
  · rw [if_neg hlen]
    exact no_nl_sentRejoin _
      (no_nl_joinSp_tokens (padLoop mainFillers pick target target 0 content) target)

theorem countOccurFuel_zero (p : Char) (rest : Text) :
    ∀ (fuel : Nat) (t : Text), p ∉ t → countOccurFuel (p :: rest) fuel t = 0
  | 0, _, _ => rfl
  | _ + 1, [], _ => rfl
  | fuel + 1, c :: cs, h => by
    have hne : p ≠ c := fun heq => h (heq ▸ List.mem_cons_self c cs)
    have hpc : ¬(begMatch (p :: rest) (c :: cs)) = true := by
      simp [begMatch, hne]
    simp only [countOccurFuel]
    rw [if_neg hpc]
    exact countOccurFuel_zero p rest fuel cs (fun hm => h (List.mem_cons_of_mem _ hm))

theorem countOccur_zero_of_head_not_mem {p : Char} {rest t : Text} (h : p ∉ t) :
    countOccur (p :: rest) t = 0 :=
  countOccurFuel_zero p rest t.length t h

/-! ## Claim analyses -/

/-- Claim C1 counterexample: content of exactly three sentences, one
repeated verbatim, all with more than three normalized tokens — but
`_check_plagiarism` returns `85.0` (the floor clamp), not `66.67`. -/
theorem C1_counterexample :
    sentTokenize exC1 =
      ["the small cat runs fast.".data, "the small cat runs fast.".data,
        "dogs bark loudly at night.".data]
    ∧ (∀ s ∈ sentTokenize exC1, 3 < wordCount (normalizeSentence s))
    ∧ ((sentTokenize exC1).map normalizeSentence).dedup.length = 2
    ∧ check_plagiarism exC1 = 85
    ∧ ¬ check_plagiarism exC1 = Rat.divInt 6667 100 :=
  ⟨by decide, by decide, by decide, by decide, by decide⟩

/-- Claim C1 (amended): for every content text of exactly three sentences,
with one sentence repeated verbatim (two distinct normalizations) and all
sentences having more than three normalized tokens, `_check_plagiarism`
returns `85.0`: the raw ratio `2/3 × 100 = 66.67` lies below the
`max(85.0, …)` floor clamp of the source, so the clamped value is
returned. -/
theorem C1_amended (content s1 s2 s3 : Text)
    (hsent : sentTokenize content = [s1, s2, s3])
    (h12 : normalizeSentence s1 = normalizeSentence s2)
    (h13 : normalizeSentence s1 ≠ normalizeSentence s3)
    (hw1 : 3 < wordCount (normalizeSentence s1))
    (hw3 : 3 < wordCount (normalizeSentence s3)) :
    check_plagiarism content = 85 := by
  simp only [check_plagiarism, hsent]
  rw [if_neg (by simp : ¬([s1, s2, s3] : List Text) = [])]
  have hmap : [s1, s2, s3].map normalizeSentence
      = [normalizeSentence s1, normalizeSentence s1, normalizeSentence s3] := by
    simp [← h12]
  rw [hmap]
  have hfil : [normalizeSentence s1, normalizeSentence s1,
        normalizeSentence s3].filter (fun n => 3 < (tokenize n).length)
      = [normalizeSentence s1, normalizeSentence s1, normalizeSentence s3] := by
    have h1 : 3 < (tokenize (normalizeSentence s1)).length := hw1
    have h3 : 3 < (tokenize (normalizeSentence s3)).length := hw3
    simp [List.filter, h1, h3]
  rw [hfil]
  have hded : [normalizeSentence s1, normalizeSentence s1,
        normalizeSentence s3].dedup = [normalizeSentence s1, normalizeSentence s3] := by
    rw [List.dedup_cons_of_mem (by simp), List.dedup_cons_of_not_mem (by simp [h13]),
      List.dedup_cons_of_not_mem (by simp), List.dedup_nil]
  rw [hded]
  simp only [List.length_cons, List.length_nil]
  decide

/-- Witness for the amended claim C1, at the concrete text `exC1`. -/
theorem C1_amended_witness :
    sentTokenize exC1 =
      ["the small cat runs fast.".data, "the small cat runs fast.".data,
        "dogs bark loudly at night.".data]
    ∧ check_plagiarism exC1 = 85 :=
  ⟨by decide,
    C1_amended exC1 ("the small cat runs fast.".data) ("the small cat runs fast.".data)
      ("dogs bark loudly at night.".data) (by decide) (by decide) (by decide)
      (by decide) (by decide)⟩

/-- Claim C3: the code contradicts its own comment (`# Ensure we end with
a complete sentence`): the sentence re-join of `_adjust_length` is a
no-op, so the result keeps the dangling fragment `Zeta eta` — it ends
mid-sentence and its word count equals the full `targetWords`, not the
sentence-rounded count. -/
theorem C3_bug :
    adjust_length (fun _ => 0) c3content 7
      = "Alpha beta gamma delta epsilon. Zeta eta".data
    ∧ adjust_length (fun _ => 0) c3content 7
      ≠ "Alpha beta gamma delta epsilon.".data
    ∧ wordCount (adjust_length (fun _ => 0) c3content 7) = 7 :=
  ⟨by decide, by decide, by decide⟩

/-- Claim C4 counterexample: at a content whose raw uniqueness ratio (75)
is below 85, both `_check_plagiarism` implementations return 85 — neither
variant floors at 0, and they agree, contradicting the claimed
divergence. -/
theorem C4_counterexample :
    check_plagiarism exC4 = 85 ∧ app_check_plagiarism exC4 = 85
    ∧ check_plagiarism exC4 = app_check_plagiarism exC4 :=
  ⟨by decide, by decide, by decide⟩

/-- Claim C4 (amended): the two near-duplicate uniqueness-score
implementations (src/main.py and src/app.py) do not diverge — both clamp
the score to the floor of 85 and the embedded functions are extensionally
equal. -/
theorem C4_amended :
    ∀ content : Text,
      check_plagiarism content = app_check_plagiarism content
      ∧ 85 ≤ check_plagiarism content := by
  intro content
  refine ⟨rfl, ?_⟩
  rw [check_plagiarism]
  split_ifs with h
  · norm_num
  · rw [qmax]
    split_ifs with h2
    · exact h2
    · exact le_refl 85

set_option maxRecDepth 40000 in
/-- Claim C5 counterexample: two texts agreeing on heading count,
paragraph-break count, keyword occurrence counts (one `alpha`, one `beta`
each) and readability-band bonus, with word count increasing from 96 to
151 (across the `>150` threshold) — yet the SEO score of `src/main.py`
drops from 70 to 65, because the keyword densities `1/96` and `1/151`
fall on different sides of the optimal band. -/
theorem C5_counterexample :
    wordCount c5a = 96 ∧ wordCount c5b = 151
    ∧ c5a.count '#' = c5b.count '#'
    ∧ countOccur ('\n' :: '\n' :: []) c5a = countOccur ('\n' :: '\n' :: []) c5b
    ∧ countOccur ("alpha".data) (pyLower c5a) = 1
    ∧ countOccur ("alpha".data) (pyLower c5b) = 1
    ∧ countOccur ("beta".data) (pyLower c5a) = 1
    ∧ countOccur ("beta".data) (pyLower c5b) = 1
    ∧ readBonus (wordCount c5a) (sentTokenize c5a).length
        = readBonus (wordCount c5b) (sentTokenize c5b).length
    ∧ calculate_seo_score c5a ("alpha, beta".data) = 70
    ∧ calculate_seo_score c5b ("alpha, beta".data) = 65 :=
  ⟨by decide, by decide, by decide, by decide, by decide, by decide, by decide,
    by decide, by decide, by decide, by decide⟩

/-- Claim C5 (amended): the SEO score of `src/main.py` is non-decreasing
in word count across the thresholds when, besides the heading count and
paragraph-break count, the total keyword-density bonus and the
readability bonus are held fixed (holding only the keyword occurrence
counts fixed is not sufficient, since the density `count/word_count`
shifts with the word count). -/
theorem C5_amended (c1 c2 keywords : Text)
    (hwc : wordCount c1 ≤ wordCount c2)
    (hhead : c1.count '#' = c2.count '#')
    (hpara : countOccur ('\n' :: '\n' :: []) c1 = countOccur ('\n' :: '\n' :: []) c2)
    (hkw : kwBonus c1 keywords (wordCount c1) = kwBonus c2 keywords (wordCount c2))
    (hread : readBonus (wordCount c1) (sentTokenize c1).length
        = readBonus (wordCount c2) (sentTokenize c2).length) :
    calculate_seo_score c1 keywords ≤ calculate_seo_score c2 keywords := by
  have hwb : wcBonus (wordCount c1) ≤ wcBonus (wordCount c2) := by
    unfold wcBonus
    split_ifs <;> omega
  simp only [calculate_seo_score]
  rw [hhead, hpara, hkw, hread]
  unfold imin
  split_ifs <;> omega

/-- Witness for the amended claim C5, at two concrete texts. -/
theorem C5_amended_witness :
    wordCount ("a b".data) ≤ wordCount ("a b c".data)
    ∧ calculate_seo_score ("a b".data) [] ≤ calculate_seo_score ("a b c".data) [] :=
  ⟨by decide,
    C5_amended ("a b".data) ("a b c".data) [] (by decide) (by decide) (by decide)
      (by decide) (by decide)⟩

/-- Claim C6 counterexample: the CLI collaborator (`main()` of
`src/main.py`) performs no topic validation — with an empty (or missing)
topic it still invokes the generation pipeline, with `topic = ""` and the
defaults for the remaining fields. -/
theorem C6_counterexample :
    cli_main ⟨some [], none, none, none⟩
      = CliOutcome.invoke [] [] ("professional".data) 500
    ∧ cli_main ⟨none, none, none, none⟩
      = CliOutcome.invoke [] [] ("professional".data) 500 :=
  ⟨by decide, by decide⟩

/-- Claim C6 (amended): both HTTP boundaries reject an empty or missing
topic with status 400 and a message mentioning "topic is required"
(case-insensitively), without invoking the pipeline; the CLI boundary,
by contrast, performs no topic validation and invokes the pipeline with
the empty topic (whenever its length conversion succeeds). -/
theorem C6_amended (data : ReqData) (h : data.topic = none ∨ data.topic = some []) :
    (∃ m1, api_generate data = .reject 400 m1
      ∧ isSubstr ("topic is required".data) (pyLower m1) = true)
    ∧ (∃ m2, app_generate data = .reject 400 m2
      ∧ isSubstr ("topic is required".data) (pyLower m2) = true)
    ∧ (∀ n : Int, pyToInt (data.length.getD (.pint 500)) = some n →
        cli_main data = .invoke (data.topic.getD []) (data.keywords.getD [])
          (data.tone.getD ("professional".data)) n) := by
  refine ⟨?_, ?_, ?_⟩
  · refine ⟨"Topic is required. Please provide a topic for content generation.".data,
      ?_, by decide⟩
    rcases h with h | h <;> simp [api_generate, h]
  · refine ⟨"Topic is required.".data, ?_, by decide⟩
    rcases h with h | h <;> simp [app_generate, h]
  · intro n hn
    rcases h with h | h <;> simp [cli_main, hn, h]

/-- Witness for the amended claim C6, at the empty-topic request. -/
theorem C6_amended_witness :
    (∃ m1, api_generate ⟨some [], none, none, none⟩ = .reject 400 m1
      ∧ isSubstr ("topic is required".data) (pyLower m1) = true)
    ∧ (∃ m2, app_generate ⟨some [], none, none, none⟩ = .reject 400 m2
      ∧ isSubstr ("topic is required".data) (pyLower m2) = true)
    ∧ (∀ n : Int, pyToInt ((⟨some [], none, none, none⟩ : ReqData).length.getD (.pint 500))
          = some n →
        cli_main ⟨some [], none, none, none⟩
          = .invoke ((⟨some [], none, none, none⟩ : ReqData).topic.getD [])
            ((⟨some [], none, none, none⟩ : ReqData).keywords.getD [])
            ((⟨some [], none, none, none⟩ : ReqData).tone.getD ("professional".data)) n) :=
  C6_amended ⟨some [], none, none, none⟩ (Or.inr rfl)

/-- Claim C7: for every behaviour of the external network (including an
exception or empty response at every fallback tier — the embedded
`fetch_web_data` is a total function of the behaviour environment) and
every topic, `generate_content` completes and returns a result with
`success = true` and non-empty content (for any positive target
length). -/
theorem C7_fetch_robust (env : GenEnv) (topic keywords tone : Text) (L : Nat)
    (hL : 1 ≤ L) :
    (generate_content env topic keywords tone L).success = true
    ∧ (generate_content env topic keywords tone L).content ≠ [] := by
  constructor
  · rfl
  · have hadj : wordCount (adjust_length env.fillerPick
        (create_content_structure topic keywords (fetch_web_data env.fetchEnv topic)
          tone env.buildRand) L) = L :=
      adjust_length_wordCount _ _ _
    set adj := adjust_length env.fillerPick
      (create_content_structure topic keywords (fetch_web_data env.fetchEnv topic)
        tone env.buildRand) L with hadjdef
    have h1 : ∃ x ∈ adj, x.isWhitespace = false :=
      exists_nonws_of_wordCount_pos (by rw [hadj]; exact hL)
    have hnl : ('\n') ∉ adj := adjust_length_no_nl _ _ _
    have h2 := humanize_exists_nonws adj tone env.transFlip env.transPick h1
    have h2nl := humanize_no_nl adj tone env.transFlip env.transPick hnl
    have h3 := format_exists_nonws
      (humanize_content adj tone env.transFlip env.transPick) h2nl h2
    obtain ⟨x, hx, -⟩ := h3
    have hc : (generate_content env topic keywords tone L).content
        = format_content (humanize_content adj tone env.transFlip env.transPick) := rfl
    rw [hc]
    exact List.ne_nil_of_mem hx

/-- Witness for claim C7, with the network raising at every tier. -/
theorem C7_fetch_robust_witness :
    1 ≤ 500
    ∧ ((generate_content envAllFail ("Ocean".data) [] ("professional".data) 500).success
          = true
      ∧ (generate_content envAllFail ("Ocean".data) [] ("professional".data) 500).content
          ≠ []) :=
  ⟨by decide, C7_fetch_robust envAllFail ("Ocean".data) [] ("professional".data) 500
    (by decide)⟩

/-- Claim C8: the filler-appending loop of `_adjust_length` terminates in
at most `targetWords` iterations, because every filler sentence of both
catalogs contributes at least one word per iteration: with any fuel of at
least `targetWords`, the loop reaches the target word count and its
result is stable under additional fuel. -/
theorem C8_padLoop_terminates (pick : Nat → Nat) (target fuel k : Nat) (content : Text)
    (hfuel : target ≤ fuel) :
    target ≤ wordCount (padLoop mainFillers pick target fuel k content)
    ∧ target ≤ wordCount (padLoop appFillers pick target fuel k content)
    ∧ padLoop mainFillers pick target fuel k content
      = padLoop mainFillers pick target target k content
    ∧ padLoop appFillers pick target fuel k content
      = padLoop appFillers pick target target k content := by
  have hm : ∀ (c : Text) (kk : Nat),
      wordCount c + 1 ≤ wordCount (c ++ pickFrom mainFillers pick kk) :=
    fun c kk => pickFrom_main_step pick kk c
  have ha : ∀ (c : Text) (kk : Nat),
      wordCount c + 1 ≤ wordCount (c ++ pickFrom appFillers pick kk) :=
    fun c kk => pickFrom_app_step pick kk c
  have hsplit : fuel = target + (fuel - target) := by omega
  refine ⟨padLoop_le mainFillers pick target hm fuel k content (by omega),
    padLoop_le appFillers pick target ha fuel k content (by omega), ?_, ?_⟩
  · conv_lhs => rw [hsplit]
    exact padLoop_stable mainFillers pick target hm target (fuel - target) k content
      (by omega)
  · conv_lhs => rw [hsplit]
    exact padLoop_stable appFillers pick target ha target (fuel - target) k content
      (by omega)

/-- Witness for claim C8 at a concrete instance. -/
theorem C8_padLoop_terminates_witness :
    (3 : Nat) ≤ 5
    ∧ (3 ≤ wordCount (padLoop mainFillers (fun _ => 0) 3 5 0 [])
      ∧ 3 ≤ wordCount (padLoop appFillers (fun _ => 0) 3 5 0 [])
      ∧ padLoop mainFillers (fun _ => 0) 3 5 0 [] = padLoop mainFillers (fun _ => 0) 3 3 0 []
      ∧ padLoop appFillers (fun _ => 0) 3 5 0 [] = padLoop appFillers (fun _ => 0) 3 3 0 []) :=
  ⟨by decide, C8_padLoop_terminates (fun _ => 0) 3 5 0 [] (by decide)⟩

/-- Claim C9: the final content of `generate_content` contains no newline
character — the length adjustment re-joins the draft's words with single
spaces, so the builder's heading lines and blank-line paragraph
separators never survive; in particular the paragraph-break count
(occurrences of two consecutive newlines) of the final text is 0. -/
theorem C9_no_newlines (env : GenEnv) (topic keywords tone : Text) (L : Nat) :
    ('\n') ∉ (generate_content env topic keywords tone L).content
    ∧ countOccur ('\n' :: '\n' :: [])
        (generate_content env topic keywords tone L).content = 0 := by
  have hnl : ('\n') ∉ adjust_length env.fillerPick
      (create_content_structure topic keywords (fetch_web_data env.fetchEnv topic)
        tone env.buildRand) L :=
    adjust_length_no_nl _ _ _
  have h2 := humanize_no_nl _ tone env.transFlip env.transPick hnl
  have h3 := format_no_nl _ h2
  have hc : (generate_content env topic keywords tone L).content
      = format_content (humanize_content (adjust_length env.fillerPick
          (create_content_structure topic keywords (fetch_web_data env.fetchEnv topic)
            tone env.buildRand) L) tone env.transFlip env.transPick) := rfl
  rw [hc]
  exact ⟨h3, countOccur_zero_of_head_not_mem h3⟩

/-- Claim C10: the batch endpoint converts each item length with bare
`int(…, default 300)` — no `[100, 2000]` clamp (a length of 5000 passes
through unchanged) and no fall-back-to-500 — so a batch containing one
item with an unparsable length fails as a whole with the HTTP-500
`except` branch and no per-topic results, while the single-generation
endpoint falls back to length 500 on the same unparsable input. -/
theorem C10_batch_length :
    batch_generate ⟨[.plainTopic ("Cats".data),
        .objTopic (some ("Dogs".data)) none none (some (.pstr ("abc".data)))],
      none, none, none⟩
      = .serverError ("invalid literal for int()".data)
    ∧ batch_generate ⟨[.objTopic (some ("Dogs".data)) none none (some (.pint 5000))],
        none, none, none⟩
      = .ok [(("Dogs".data), [], ("professional".data), 5000)]
    ∧ api_generate ⟨some ("Dogs".data), none, none, some (.pstr ("abc".data))⟩
      = .invoke ("Dogs".data) [] ("professional".data) 500 :=
  ⟨by decide, by decide, by decide⟩

set_option maxRecDepth 100000 in
/-- Claim C2 counterexample: a deterministic full-pipeline run with
target length 100 (within [100, 2000]) and non-trivial topic in which the
humanizer's transition insertion lands on one sentence: the reported
`word_count` is 101, strictly greater than the target length. -/
theorem C2_counterexample :
    (generate_content envC2 ("Solar".data) [] ("professional".data) 100).word_count = 101
    ∧ ¬ (generate_content envC2 ("Solar".data) [] ("professional".data) 100).word_count
        ≤ 100 := by
  have h : (generate_content envC2 ("Solar".data) [] ("professional".data) 100).word_count
      = 101 := by decide
  exact ⟨h, by rw [h]; decide⟩

/-- Claim C2 (amended): for every request with 100 ≤ L ≤ 2000, the word
count of the content immediately after the length-adjustment stage is
exactly L; the subsequent humanization stage can insert transition words
(and substitute phrases of different lengths), so the final reported
`word_count` is within one sentence of L only up to those edits and can
in particular exceed L. -/
theorem C2_amended (env : GenEnv) (topic keywords tone : Text) (L : Nat)
    (h1 : 100 ≤ L) (h2 : L ≤ 2000) :
    wordCount (adjust_length env.fillerPick
      (create_content_structure topic keywords (fetch_web_data env.fetchEnv topic) tone
        env.buildRand) L) = L :=
  adjust_length_wordCount _ _ _

/-- Witness for the amended claim C2 at the deterministic run. -/
theorem C2_amended_witness :
    (100 : Nat) ≤ 100 ∧ (100 : Nat) ≤ 2000
    ∧ wordCount (adjust_length envC2.fillerPick
        (create_content_structure ("Solar".data) []
          (fetch_web_data envC2.fetchEnv ("Solar".data)) ("professional".data)
          envC2.buildRand) 100) = 100 :=
  ⟨by decide, by decide,
    C2_amended envC2 ("Solar".data) [] ("professional".data) 100 (by decide) (by decide)⟩

end ContentApi
